import Mathlib

/-!
Verification of the OpenMEEG head-matrix assembly core: a shallow embedding of
the symmetric packed matrix storage (symmatrix.h), the boundary-integral
operator block engines (operators.h) and the assembly orchestrator with its
deflation stage (assembleHeadMat.cpp), together with theorems about the
behaviour of these components.  Real values are modelled as rationals; the
integrator and the analytic kernels are external collaborators and are
modelled as abstract coefficient tables.
-/

/-! ## Basic geometry values -/

/-- A 3-D vector (`Vect3` in the C++ sources). -/
structure Vect3 where
  x : ℚ
  y : ℚ
  z : ℚ
deriving DecidableEq

/-- Dot product of two 3-D vectors (`dotprod`). -/
def dotprod (a b : Vect3) : ℚ := a.x * b.x + a.y * b.y + a.z * b.z

/-! ## Symmetric packed storage (symmatrix.h)

`SymMatrix::operator()` resolves entry (i,j) to the linear storage cell
`(i<=j) ? i+j*(j+1)/2 : j+i*(i+1)/2`. -/

/-- The linear storage cell used by `SymMatrix::operator()(i,j)`. -/
def symIndex (i j : ℕ) : ℕ := if i ≤ j then i + j * (j + 1) / 2 else j + i * (i + 1) / 2

/-- The packed symmetric matrix (`SymMatrix`): a dimension and the linear
storage, modelled as a total map from cell numbers to values. -/
structure SymMatrix where
  nlin : ℕ
  data : ℕ → ℚ

/-- Number of stored cells (`SymMatrix::size`). -/
def SymMatrix.size (M : SymMatrix) : ℕ := M.nlin * (M.nlin + 1) / 2

/-- Entry read (`SymMatrix::operator()(i,j) const`). -/
def SymMatrix.get (M : SymMatrix) (i j : ℕ) : ℚ := M.data (symIndex i j)

/-- Entry write through the same cell resolution (`SymMatrix::operator()(i,j)`
used as an lvalue). -/
def SymMatrix.setEntry (M : SymMatrix) (i j : ℕ) (v : ℚ) : SymMatrix :=
  ⟨M.nlin, fun c => if c = symIndex i j then v else M.data c⟩

/-- `SymMatrix::set(x)`: writes `x` into every one of the `size()` stored
cells. -/
def SymMatrix.setAll (M : SymMatrix) (x : ℚ) : SymMatrix :=
  ⟨M.nlin, fun c => if c < M.size then x else M.data c⟩

/-- `SymMatrix(N)`: allocation of an `N`-dimensional matrix.  The C++
allocation leaves the cells uninitialized; the arbitrary memory contents are
modelled by the explicit parameter `g`. -/
def SymMatrix.allocG (N : ℕ) (g : ℕ → ℚ) : SymMatrix := ⟨N, g⟩

/-! ## Geometry data model (external collaborators of operators.h)

A triangle carries its global index, its cached area, its three global
vertex indices, and, for each vertex `V` it contains, the edge vector
`CB = edge.vertex(0) - edge.vertex(1)` of the edge opposite `V`
(`T.edge(V)` in the sources; the mesh classes are outside the core, so the
edge orientation convention is kept abstract in the `CB` table). -/

structure Triangle where
  index : ℕ
  area : ℚ
  vertex : Fin 3 → ℕ
  CB : ℕ → Vect3

/-- A mesh: identity (for the `mesh1==mesh2` tests), the `current_barrier`
and `outermost` flags, its triangles, the global indices of its vertices and
the incidence map `triangles(V)` giving the triangles incident to a vertex. -/
structure Mesh where
  meshId : ℕ
  current_barrier : Bool
  outermost : Bool
  triangles : List Triangle
  vertices : List ℕ
  trianglesAt : ℕ → List Triangle

/-- The integrator / analytic-kernel collaborator: `S t1 t2` is the value of
`integrator.integrate(analyticS(T1).f, T2)` and `D t1 t2 i` the i-th
component of `integrator.integrate(analyticD3(T2).f, T1)`, keyed by the
global triangle indices. -/
structure Integ where
  S : ℕ → ℕ → ℚ
  D : ℕ → ℕ → Fin 3 → ℚ

/-! ## Matrix-like sinks

The operator blocks are templates over the sink type in C++; `MatOps`
packages the read/write accessors of one sink type. -/

structure MatOps (σ : Type) where
  get : σ → ℕ → ℕ → ℚ
  set : σ → ℕ → ℕ → ℚ → σ

/-- The `SymMatrix` sink. -/
def symOps : MatOps SymMatrix := ⟨SymMatrix.get, SymMatrix.setEntry⟩

/-- `DiagonalBlock::SymBloc`: a symmetric matrix addressed through a constant
index offset. -/
structure SymBloc where
  offset : ℕ
  base : SymMatrix

/-- The `SymBloc` sink (both indices shifted by the offset). -/
def symBlocOps : MatOps SymBloc :=
  ⟨fun b i j => b.base.get (i - b.offset) (j - b.offset),
   fun b i j v => ⟨b.offset, b.base.setEntry (i - b.offset) (j - b.offset) v⟩⟩

/-- A dense rectangular matrix (`Matrix` of OpenMEEGMaths), modelled as
dimensions plus a total entry map. -/
structure DenMatrix where
  nlin : ℕ
  ncol : ℕ
  entry : ℕ → ℕ → ℚ

/-- Entry write of the dense matrix. -/
def DenMatrix.set (A : DenMatrix) (i j : ℕ) (v : ℚ) : DenMatrix :=
  ⟨A.nlin, A.ncol, fun a b => if a = i ∧ b = j then v else A.entry a b⟩

/-- The dense-matrix sink. -/
def denOps : MatOps DenMatrix := ⟨fun A i j => A.entry i j, DenMatrix.set⟩

/-- `NonDiagonalBlock::Bloc`: a dense matrix addressed through a constant
row/column offset pair. -/
structure Bloc where
  i0 : ℕ
  j0 : ℕ
  base : DenMatrix

/-- The `Bloc` sink. -/
def blocOps : MatOps Bloc :=
  ⟨fun b i j => b.base.entry (i - b.i0) (j - b.j0),
   fun b i j v => ⟨b.i0, b.j0, b.base.set (i - b.i0) (j - b.j0) v⟩⟩

/-! ## BlocksBase: the N summation (operators.h) -/

/-- The private `BlocksBase::N(factor,V1,V2,m1,m2,matrix)` summation: over all
triangles `T1` incident to `V1` in `m1` and `T2` incident to `V2` in `m2`,
accumulate `-factor * dot(CB1,CB2) * matrix(T1.index,T2.index)
/ (T1.area * T2.area)`.  The matrix is abstracted to the read function
`sread`. -/
def baseNaux (factor : ℚ) (V1 V2 : ℕ) (m1 m2 : Mesh) (sread : ℕ → ℕ → ℚ) : ℚ :=
  (m1.trianglesAt V1).foldl (fun acc t1 =>
    (m2.trianglesAt V2).foldl (fun acc t2 =>
      acc - factor * dotprod (t1.CB V1) (t2.CB V2) * sread t1.index t2.index
        / (t1.area * t2.area)) acc) 0

/-- The public same-mesh overload `BlocksBase::N(V1,V2,m,matrix)`: the factor
is always `0.25`. -/
def baseNsame (V1 V2 : ℕ) (m : Mesh) (sread : ℕ → ℕ → ℚ) : ℚ :=
  baseNaux (1/4) V1 V2 m m sread

/-- The public two-mesh overload `BlocksBase::N(V1,V2,m1,m2,matrix)` (the
sources note it assumes the meshes are different): the factor is `0.5` when
`V1==V2` and `0.25` otherwise. -/
def baseNdiff (V1 V2 : ℕ) (m1 m2 : Mesh) (sread : ℕ → ℕ → ℚ) : ℚ :=
  baseNaux (if V1 = V2 then 1/2 else 1/4) V1 V2 m1 m2 sread

/-- The clean double sum the `baseNaux` fold computes (without the `-factor`
scaling): `Σ_{T1∋V1} Σ_{T2∋V2} dot(CB1,CB2)·S(T1,T2)/(area1·area2)`. -/
def pairSum (V1 V2 : ℕ) (m1 m2 : Mesh) (sread : ℕ → ℕ → ℚ) : ℚ :=
  ((m1.trianglesAt V1).map (fun t1 =>
    ((m2.trianglesAt V2).map (fun t2 =>
      dotprod (t1.CB V1) (t2.CB V2) * sread t1.index t2.index
        / (t1.area * t2.area))).sum)).sum

/-! ## The operator block engines (operators.h) -/

/-- `BlocksBase::D(T1,T2,mat,coeff)`: accumulate, for each of the three
vertices of `T2`, `integrate(analyticD3(T2).f,T1)(i) * coeff` into
`mat(T1.index, T2.vertex(i).index)`. -/
def opDpair {σ : Type} (ops : MatOps σ) (integ : Integ) (T1 T2 : Triangle)
    (coeff : ℚ) (mat : σ) : σ :=
  (List.finRange 3).foldl (fun mat i =>
    ops.set mat T1.index (T2.vertex i)
      (ops.get mat T1.index (T2.vertex i) + integ.D T1.index T2.index i * coeff)) mat

/-- `BlocksBase::D(triangles1,triangles2,coeff,mat)`: the double loop over
all triangle pairs. -/
def opD {σ : Type} (ops : MatOps σ) (integ : Integ)
    (tris1 tris2 : List Triangle) (coeff : ℚ) (mat : σ) : σ :=
  tris1.foldl (fun mat t1 =>
    tris2.foldl (fun mat t2 => opDpair ops integ t1 t2 coeff mat) mat) mat

/-- `NonDiagonalBlock::S`: for every triangle pair the sink entry
`(T1.index,T2.index)` is assigned `integrate(Sfunc,T2) * coeff`. -/
def ndSop {σ : Type} (ops : MatOps σ) (integ : Integ) (m1 m2 : Mesh)
    (coeff : ℚ) (mat : σ) : σ :=
  m1.triangles.foldl (fun mat t1 =>
    m2.triangles.foldl (fun mat t2 =>
      ops.set mat t1.index t2.index (integ.S t1.index t2.index * coeff)) mat) mat

/-- The loop structure of `DiagonalBlock::S`: for each triangle `T1`, the
inner loop runs only over `T2` from `T1`'s position to the end of the list
(the symmetric-matrix shortcut). -/
def diagSaux {σ : Type} (ops : MatOps σ) (integ : Integ) (coeff : ℚ) :
    List Triangle → σ → σ
  | [], mat => mat
  | t1 :: rest, mat =>
    diagSaux ops integ coeff rest
      ((t1 :: rest).foldl (fun mat t2 =>
        ops.set mat t1.index t2.index (integ.S t1.index t2.index * coeff)) mat)

/-- `DiagonalBlock::S(coeff,matrix)`. -/
def diagSop {σ : Type} (ops : MatOps σ) (integ : Integ) (m : Mesh)
    (coeff : ℚ) (mat : σ) : σ :=
  diagSaux ops integ coeff m.triangles mat

/-- `mesh.triangles().front().index()` (used as the block-view offset). -/
def frontIdx (l : List Triangle) : ℕ :=
  match l with
  | [] => 0
  | t :: _ => t.index

/-- The body of the `DiagonalBlock` private N loop: the sink entry
`(V1,V2)` is incremented by `BlocksBase::N(V1,V2,mesh,S) * coeff`, reading
the S values through `sget` applied to the current sink state (in the cached
branch the S source *is* the sink, so reads see the evolving state). -/
def diagNstep {σ : Type} (ops : MatOps σ) (m : Mesh) (sget : σ → ℕ → ℕ → ℚ)
    (coeff : ℚ) (mat : σ) (V1 V2 : ℕ) : σ :=
  ops.set mat V1 V2 (ops.get mat V1 V2 + baseNsame V1 V2 m (sget mat) * coeff)

/-- The `DiagonalBlock` private N double loop: for each vertex `V1`, the
inner loop runs over `V2` from `V1`'s position to the end (symmetric
shortcut). -/
def diagNaux {σ : Type} (ops : MatOps σ) (m : Mesh) (sget : σ → ℕ → ℕ → ℚ)
    (coeff : ℚ) : List ℕ → σ → σ
  | [], mat => mat
  | v1 :: rest, mat =>
    diagNaux ops m sget coeff rest
      ((v1 :: rest).foldl (fun mat v2 => diagNstep ops m sget coeff mat v1 v2) mat)

/-- The temporary `SymBloc` S sub-block of `DiagonalBlock::N`'s fresh branch:
`SymBloc Sbloc(front_index, nb_triangles); S(1.0,Sbloc)`.  `g` models the
uninitialized allocation contents. -/
def freshDiagS (integ : Integ) (m : Mesh) (g : ℕ → ℚ) : SymBloc :=
  diagSop symBlocOps integ m 1
    ⟨frontIdx m.triangles, SymMatrix.allocG m.triangles.length g⟩

/-- `DiagonalBlock::N(coeff,matrix)`: if an S block has been recorded
(`Scoeff != 0`), derive N from the sink's own stored S values rescaled by
`coeff/Scoeff`; otherwise compute a temporary S sub-block at coefficient 1
through the offset `SymBloc` view and derive N from it. -/
def diagN {σ : Type} (ops : MatOps σ) (integ : Integ) (m : Mesh) (g : ℕ → ℚ)
    (Scoeff coeff : ℚ) (mat : σ) : σ :=
  if Scoeff ≠ 0 then
    diagNaux ops m ops.get (coeff / Scoeff) m.vertices mat
  else
    diagNaux ops m
      (fun _ i j => symBlocOps.get (freshDiagS integ m g) i j) coeff m.vertices mat

/-- The body of the `NonDiagonalBlock` private N loop (two-mesh overload of
`BlocksBase::N`). -/
def ndNstep {σ : Type} (ops : MatOps σ) (m1 m2 : Mesh) (sget : σ → ℕ → ℕ → ℚ)
    (coeff : ℚ) (mat : σ) (v1 v2 : ℕ) : σ :=
  ops.set mat v1 v2 (ops.get mat v1 v2 + baseNdiff v1 v2 m1 m2 (sget mat) * coeff)

/-- The `NonDiagonalBlock` private N double loop over all vertex pairs. -/
def ndNaux {σ : Type} (ops : MatOps σ) (m1 m2 : Mesh) (sget : σ → ℕ → ℕ → ℚ)
    (coeff : ℚ) (mat : σ) : σ :=
  m1.vertices.foldl (fun mat v1 =>
    m2.vertices.foldl (fun mat v2 => ndNstep ops m1 m2 sget coeff mat v1 v2) mat) mat

/-- The temporary `Bloc` S sub-block of `NonDiagonalBlock::N`'s fresh branch,
with row/column offsets taken from the two meshes' first triangle indices.
`g` models the uninitialized allocation contents. -/
def freshNdS (integ : Integ) (m1 m2 : Mesh) (g : ℕ → ℕ → ℚ) : Bloc :=
  ndSop blocOps integ m1 m2 1
    ⟨frontIdx m1.triangles, frontIdx m2.triangles,
     ⟨m1.triangles.length, m2.triangles.length, g⟩⟩

/-- `NonDiagonalBlock::N(coeff,matrix)`. -/
def ndN {σ : Type} (ops : MatOps σ) (integ : Integ) (m1 m2 : Mesh)
    (g : ℕ → ℕ → ℚ) (Scoeff coeff : ℚ) (mat : σ) : σ :=
  if Scoeff ≠ 0 then
    ndNaux ops m1 m2 ops.get (coeff / Scoeff) mat
  else
    ndNaux ops m1 m2 (fun _ i j => blocOps.get (freshNdS integ m1 m2 g) i j) coeff mat

/-! ## The public set-block interface, specialized to the SymMatrix sink
(the instantiation used by head-matrix assembly).  Each `set_*_block`
returns the possibly updated `Scoeff` cache together with the sink. -/

/-- `DiagonalBlock::set_S_block`: computes S and records `Scoeff` unless the
mesh is a current barrier. -/
def diagSetS (integ : Integ) (m : Mesh) (coeff Scoeff : ℚ) (mat : SymMatrix) :
    ℚ × SymMatrix :=
  if m.current_barrier then (Scoeff, mat) else (coeff, diagSop symOps integ m coeff mat)

/-- `DiagonalBlock::set_N_block`: always computes N. -/
def diagSetN (integ : Integ) (g : ℕ → ℚ) (m : Mesh) (coeff Scoeff : ℚ)
    (mat : SymMatrix) : SymMatrix :=
  diagN symOps integ m g Scoeff coeff mat

/-- `DiagonalBlock::set_D_block`: computes D unless the mesh is a current
barrier. -/
def diagSetD (integ : Integ) (m : Mesh) (coeff : ℚ) (mat : SymMatrix) : SymMatrix :=
  if m.current_barrier then mat else opD symOps integ m.triangles m.triangles coeff mat

/-- `DiagonalBlock::set_Dstar_block`: an empty body. -/
def diagSetDstar (_integ : Integ) (_m : Mesh) (_coeff : ℚ) (mat : SymMatrix) :
    SymMatrix :=
  mat

/-- `NonDiagonalBlock::set_S_block`: computes S and records `Scoeff` unless
either mesh is a current barrier. -/
def ndSetS (integ : Integ) (m1 m2 : Mesh) (coeff Scoeff : ℚ) (mat : SymMatrix) :
    ℚ × SymMatrix :=
  if ¬m1.current_barrier ∧ ¬m2.current_barrier then
    (coeff, ndSop symOps integ m1 m2 coeff mat)
  else (Scoeff, mat)

/-- `NonDiagonalBlock::set_N_block`: always computes N. -/
def ndSetN (integ : Integ) (g : ℕ → ℕ → ℚ) (m1 m2 : Mesh) (coeff Scoeff : ℚ)
    (mat : SymMatrix) : SymMatrix :=
  ndN symOps integ m1 m2 g Scoeff coeff mat

/-- `NonDiagonalBlock::set_D_block`: computes D unless `mesh1` is a current
barrier. -/
def ndSetD (integ : Integ) (m1 m2 : Mesh) (coeff : ℚ) (mat : SymMatrix) : SymMatrix :=
  if ¬m1.current_barrier then opD symOps integ m1.triangles m2.triangles coeff mat
  else mat

/-- `NonDiagonalBlock::set_Dstar_block`: computes D with the mesh roles
swapped, unless the meshes coincide or `mesh2` is a current barrier. -/
def ndSetDstar (integ : Integ) (m1 m2 : Mesh) (coeff : ℚ) (mat : SymMatrix) :
    SymMatrix :=
  if m1.meshId ≠ m2.meshId ∧ ¬m2.current_barrier then
    opD symOps integ m2.triangles m1.triangles coeff mat
  else mat

/-! ## HeadMatrixBlocks::set_blocks and the assembly orchestrator
(assembleHeadMat.cpp) -/

/-- `HeadMatrixBlocks<DiagonalBlock>::set_blocks(coeffs,matrix)`: the four
block operators invoked in the fixed order S, N, D, D*, with a freshly
constructed engine (so `Scoeff` starts at 0) and `coeffs[2]` shared by D and
D*. -/
def diagSetBlocks (integ : Integ) (g : ℕ → ℚ) (m : Mesh) (c0 c1 c2 : ℚ)
    (mat : SymMatrix) : SymMatrix :=
  let p := diagSetS integ m c0 0 mat
  let mat1 := diagSetN integ g m c1 p.1 p.2
  let mat2 := diagSetD integ m c2 mat1
  diagSetDstar integ m c2 mat2

/-- `HeadMatrixBlocks<NonDiagonalBlock>::set_blocks(coeffs,matrix)`. -/
def ndSetBlocks (integ : Integ) (g : ℕ → ℕ → ℚ) (m1 m2 : Mesh) (c0 c1 c2 : ℚ)
    (mat : SymMatrix) : SymMatrix :=
  let p := ndSetS integ m1 m2 c0 0 mat
  let mat1 := ndSetN integ g m1 m2 c1 p.1 p.2
  let mat2 := ndSetD integ m1 m2 c2 mat1
  ndSetDstar integ m1 m2 c2 mat2

/-- One communicating mesh pair as reported by the Geometry, together with
its `relative_orientation()` and the conductivity-contrast coefficients
`sigma`, `sigma_inv` and `indicator` the Geometry supplies for the pair. -/
structure MeshPair where
  mesh1 : Mesh
  mesh2 : Mesh
  relOrient : ℚ
  sigma : ℚ
  sigmaInv : ℚ
  indicator : ℚ

/-- The Geometry collaborator: aggregate counts, the communicating mesh
pairs, and the isolated parts used by deflation. -/
structure Geometry where
  nbParams : ℕ
  nbCBT : ℕ
  pairs : List MeshPair
  parts : List (List Mesh)

/-- The matrix allocated by `Details::HeadMatrix` and initialized by
`HeadMatrixBlocks<SymMatrix>::init`: dimension
`nb_parameters - nb_current_barrier_triangles`, all stored cells set to 0
(`g` models the uninitialized allocation contents). -/
def initHeadMatrix (geo : Geometry) (g : ℕ → ℚ) : SymMatrix :=
  (SymMatrix.allocG (geo.nbParams - geo.nbCBT) g).setAll 0

/-- One iteration of the pair loop of `Details::HeadMatrix`: skip the pair if
the selector disables it, otherwise compute
`factor = relative_orientation * K` and the three conductivity coefficients,
and dispatch to the same-mesh or different-mesh engine. -/
def headStep (K : ℚ) (integ : Integ) (g : ℕ → ℚ) (g2 : ℕ → ℕ → ℚ)
    (disable : Mesh → Mesh → Bool) (mat : SymMatrix) (mp : MeshPair) : SymMatrix :=
  if disable mp.mesh1 mp.mesh2 then mat
  else
    let factor := mp.relOrient * K
    let SCondCoeff := factor * mp.sigmaInv
    let NCondCoeff := factor * mp.sigma
    let DCondCoeff := -(factor * mp.indicator)
    if mp.mesh1.meshId = mp.mesh2.meshId then
      diagSetBlocks integ g mp.mesh1 SCondCoeff NCondCoeff DCondCoeff mat
    else
      ndSetBlocks integ g2 mp.mesh1 mp.mesh2 SCondCoeff NCondCoeff DCondCoeff mat

/-! ## Deflation (Details::deflate) -/

/-- `nb_vertices` of one isolated part: the vertices of its outermost
meshes. -/
def partNbVertices (part : List Mesh) : ℕ :=
  part.foldl (fun acc m => if m.outermost then acc + m.vertices.length else acc) 0

/-- `i_first` of one isolated part, computed by the code's zero-sentinel
scan: starting from 0, the first outermost mesh found while the accumulator
is still 0 contributes its first vertex index. -/
def partIFirst (part : List Mesh) : ℕ :=
  part.foldl (fun acc m =>
    if m.outermost then (if acc = 0 then m.vertices.headI else acc) else acc) 0

/-- The inner `for vit2 = vit1 ... end` row of the deflation double loop:
add `coef` to `M(v1,v2)` for every `v2` in `l`. -/
def deflateRow (coef : ℚ) (v1 : ℕ) (l : List ℕ) (M : SymMatrix) : SymMatrix :=
  l.foldl (fun M v2 => M.setEntry v1 v2 (M.get v1 v2 + coef)) M

/-- The deflation double loop over one vertex list: for each `v1`, the inner
row runs from `v1`'s position to the end. -/
def deflateUpper (coef : ℚ) : List ℕ → SymMatrix → SymMatrix
  | [], M => M
  | v1 :: rest, M => deflateUpper coef rest (deflateRow coef v1 (v1 :: rest) M)

/-- Deflation of one isolated part: `coef = M(i_first,i_first)/nb_vertices`,
then the double loop over the vertices of each outermost mesh of the part. -/
def deflatePart (M : SymMatrix) (part : List Mesh) : SymMatrix :=
  let coef := M.get (partIFirst part) (partIFirst part) / (partNbVertices part : ℚ)
  part.foldl (fun M m => if m.outermost then deflateUpper coef m.vertices M else M) M

/-- `Details::deflate(M,geo)`: deflate every isolated part in turn. -/
def deflate (M : SymMatrix) (geo : Geometry) : SymMatrix :=
  geo.parts.foldl deflatePart M

/-- `Details::HeadMatrix`: allocate and zero the matrix, run the pair loop,
then deflate. -/
def headAssemble (K : ℚ) (integ : Integ) (g : ℕ → ℚ) (g2 : ℕ → ℕ → ℚ)
    (disable : Mesh → Mesh → Bool) (geo : Geometry) : SymMatrix :=
  deflate (geo.pairs.foldl (headStep K integ g g2 disable) (initHeadMatrix geo g)) geo

/-! ## SymMatrix::submat (symmatrix.h) -/

/-- `SymMatrix::submat(istart,iend)`: allocates a matrix of dimension
`iend-istart+1` (uninitialized contents `g`) and then executes
`for i=istart..iend: for j=i..iend: mat(i,j) = (*this)(i,j)` — note the
unshifted indices, exactly as in the source. -/
def SymMatrix.submat (M : SymMatrix) (g : ℕ → ℚ) (istart iend : ℕ) : SymMatrix :=
  let isize := iend - istart + 1
  (List.range' istart (iend + 1 - istart)).foldl (fun mat i =>
    (List.range' i (iend + 1 - i)).foldl (fun mat j =>
      mat.setEntry i j (M.get i j)) mat)
    (SymMatrix.allocG isize g)

/-! ## The point-evaluation builders (Surf2VolMat, DipSource2InternalPotMat)

The geometry lookups these builders need: the domain containing a point and
each domain's conductivity, plus the flattened oriented meshes of a domain's
boundaries with their orientation coefficients. -/

structure PGeo where
  domainOf : Vect3 → ℕ
  cond : ℕ → ℚ
  nbParams : ℕ
  nbCBT : ℕ
  boundaryMeshes : ℕ → List (Mesh × ℚ)

/-- The closed-form analytic kernels used by `PartialBlock` (evaluated
directly, without the integrator). -/
structure PAnalytics where
  aS : ℕ → Vect3 → ℚ
  aD : ℕ → Vect3 → Fin 3 → ℚ

/-- `PartialBlock::addD`: for every triangle of the mesh and every retained
point, accumulate the three vertex contributions into
`matrix(point.index, triangle.vertex(i).index)`. -/
def pblockAddD (an : PAnalytics) (m : Mesh) (coeff : ℚ)
    (pts : List (Vect3 × ℕ)) (mat : DenMatrix) : DenMatrix :=
  m.triangles.foldl (fun mat t =>
    pts.foldl (fun mat pv =>
      (List.finRange 3).foldl (fun mat i =>
        mat.set pv.2 (t.vertex i)
          (mat.entry pv.2 (t.vertex i) + an.aD t.index pv.1 i * coeff)) mat) mat) mat

/-- `PartialBlock::S`: assigns `coeff * analyticS(T).f(point)` to
`matrix(point.index, T.index)`. -/
def pblockS (an : PAnalytics) (m : Mesh) (coeff : ℚ)
    (pts : List (Vect3 × ℕ)) (mat : DenMatrix) : DenMatrix :=
  m.triangles.foldl (fun mat t =>
    pts.foldl (fun mat pv => mat.set pv.2 t.index (coeff * an.aS t.index pv.1)) mat) mat

/-- Insertion into the `std::map<const Domain*,Vertices>` grouping, keyed by
domain: append to the existing group or create a new one. -/
def insertGrp : List (ℕ × List (Vect3 × ℕ)) → ℕ → (Vect3 × ℕ) →
    List (ℕ × List (Vect3 × ℕ))
  | [], d, pv => [(d, [pv])]
  | (d', l) :: rest, d, pv =>
    if d' = d then (d', l ++ [pv]) :: rest else (d', l) :: insertGrp rest d pv

/-- One step of the point-classification loop of `Surf2VolMat`: a point in a
zero-conductivity domain is dropped (with a warning); otherwise it is
appended to its domain's group with the next running index. -/
def s2vStep (g : PGeo) (acc : List (ℕ × List (Vect3 × ℕ)) × ℕ) (p : Vect3) :
    List (ℕ × List (Vect3 × ℕ)) × ℕ :=
  let d := g.domainOf p
  if g.cond d = 0 then acc
  else (insertGrp acc.1 d (p, acc.2), acc.2 + 1)

/-- The point-classification loop of `Surf2VolMat`. -/
def s2vGroups (g : PGeo) (points : List Vect3) :
    List (ℕ × List (Vect3 × ℕ)) × ℕ :=
  points.foldl (s2vStep g) ([], 0)

/-- `Surf2VolMat(geo,points)`: classify the points, allocate the
`size × (nb_parameters - nb_current_barrier_triangles)` zero matrix, and fill
it per domain group through `PartialBlock`. -/
def Surf2VolMat (K : ℚ) (g : PGeo) (an : PAnalytics) (points : List Vect3) :
    DenMatrix :=
  let gr := s2vGroups g points
  let mat0 : DenMatrix := ⟨gr.2, g.nbParams - g.nbCBT, fun _ _ => 0⟩
  gr.1.foldl (fun mat grp =>
    (g.boundaryMeshes grp.1).foldl (fun mat om =>
      let coeff := om.2 * K
      let mat1 := pblockAddD an om.1 (-coeff) grp.2 mat
      if ¬om.1.current_barrier then pblockS an om.1 (coeff / g.cond grp.1) grp.2 mat1
      else mat1) mat) mat0

/-- A dipole: its position and its precomputed potential field
`dipole.potential(x)`. -/
structure Dip where
  pos : Vect3
  pot : Vect3 → ℚ

/-- `DipSource2InternalPotMat`: drop the points lying in zero-conductivity
domains (with a warning), allocate a `retained × n_dipoles` zero matrix, and
accumulate `K/cond * dipole.potential(point)` for each retained point lying
in the dipole's domain. -/
def DipSource2InternalPotMat (K : ℚ) (g : PGeo) (dipoles : List Dip)
    (points : List Vect3) (domainName : Option ℕ) : DenMatrix :=
  let kept := ((points.map (fun p => (g.domainOf p, p))).filter
    (fun dp => decide (g.cond dp.1 ≠ 0)))
  let mat0 : DenMatrix := ⟨kept.length, dipoles.length, fun _ _ => 0⟩
  dipoles.enum.foldl (fun mat idip =>
    let dom := match domainName with
      | some d => d
      | none => g.domainOf idip.2.pos
    let coeff := K / g.cond dom
    kept.enum.foldl (fun mat ipt =>
      if ipt.2.1 = dom then
        mat.set ipt.1 idip.1 (mat.entry ipt.1 idip.1 + coeff * idip.2.pot ipt.2.2)
      else mat) mat) mat0

/-! ## The engine state machine (for the Scoeff cache safety property) -/

/-- One public block operation applied to an engine instance. -/
inductive BOp where
  | bS (c : ℚ)
  | bN (c : ℚ)
  | bD (c : ℚ)
  | bDstar (c : ℚ)
deriving DecidableEq

/-- Run a sequence of block operations on one `DiagonalBlock` instance,
threading the `Scoeff` cache (initially 0 on construction). -/
def runDiag (integ : Integ) (g : ℕ → ℚ) (m : Mesh) :
    List BOp → ℚ × SymMatrix → ℚ × SymMatrix
  | [], st => st
  | op :: rest, st =>
    runDiag integ g m rest
      (match op with
       | .bS c => diagSetS integ m c st.1 st.2
       | .bN c => (st.1, diagSetN integ g m c st.1 st.2)
       | .bD c => (st.1, diagSetD integ m c st.2)
       | .bDstar c => (st.1, diagSetDstar integ m c st.2))

/-- Run a sequence of block operations on one `NonDiagonalBlock` instance. -/
def runNd (integ : Integ) (g2 : ℕ → ℕ → ℚ) (m1 m2 : Mesh) :
    List BOp → ℚ × SymMatrix → ℚ × SymMatrix
  | [], st => st
  | op :: rest, st =>
    runNd integ g2 m1 m2 rest
      (match op with
       | .bS c => ndSetS integ m1 m2 c st.1 st.2
       | .bN c => (st.1, ndSetN integ g2 m1 m2 c st.1 st.2)
       | .bD c => (st.1, ndSetD integ m1 m2 c st.2)
       | .bDstar c => (st.1, ndSetDstar integ m1 m2 c st.2))



/-! ## Spec-side definitions and concrete instances used by the
verification -/

/-- The N factor as the specification words it: 0.5 when `V1==V2` *and the
two meshes coincide*, else 0.25 (written from the spec, for comparison with
the code's overloads). -/
def claimNfactor (sameMesh : Bool) (V1 V2 : ℕ) : ℚ :=
  if V1 = V2 ∧ sameMesh = true then 1/2 else 1/4

/-- Triangle index list of a mesh. -/
def triIdx (m : Mesh) : List ℕ := m.triangles.map Triangle.index

/-- The (T1,T2) pairs visited by the upper-triangular double loops: each
element paired with every element from its own position onwards. -/
def upperPairs {α : Type} : List α → List (α × α)
  | [] => []
  | x :: xs => ((x :: xs).map (fun y => (x, y))) ++ upperPairs xs

/-- `coef` of one isolated part as the deflation stage computes it. -/
def partCoef (M : SymMatrix) (part : List Mesh) : ℚ :=
  M.get (partIFirst part) (partIFirst part) / (partNbVertices part : ℚ)

/-- Spec-side: the total deflation increment at entry `(a,b)` per the
amended claim — `coef` of a part for entries whose two indices are vertices
of one and the same outermost mesh of that part, summed over parts. -/
def deflateDelta (M : SymMatrix) (parts : List (List Mesh)) (a b : ℕ) : ℚ :=
  (parts.map (fun part =>
    if ∃ m ∈ part, m.outermost = true ∧ a ∈ m.vertices ∧ b ∈ m.vertices
    then partCoef M part else 0)).sum

/-- Mesh with the `current_barrier` flag replaced. -/
def setCB (m : Mesh) (b : Bool) : Mesh := { m with current_barrier := b }

/-- Total number of retained points over all groups. -/
def grpSizes (grps : List (ℕ × List (Vect3 × ℕ))) : ℕ :=
  (grps.map (fun grp => grp.2.length)).sum

/-- A unit witness triangle with index 3, area 1 and constant opposite-edge
vector (1,0,0). -/
def triW : Triangle := ⟨3, 1, fun _ => 0, fun _ => ⟨1, 0, 0⟩⟩

/-- A one-triangle witness mesh whose single vertex 0 is incident to
`triW`. -/
def meshW : Mesh := ⟨0, false, false, [triW], [0], fun _ => [triW]⟩

/-- Witness matrix for the storage claims: dimension 5, cell `c` holds
`c`. -/
def matW3 : SymMatrix := ⟨5, fun c => (c : ℚ)⟩

/-- Witness geometry for the allocation claim. -/
def geoW4 : Geometry := ⟨7, 2, [], []⟩

/-- Witness matrix for the submat evaluation: dimension 3, cell `c` holds
`c + 1` (so that entry (1,1), stored in cell 2, holds 3). -/
def matW8 : SymMatrix := ⟨3, fun c => (c : ℚ) + 1⟩

/-- Witness integrator with constant kernels. -/
def integW : Integ := ⟨fun _ _ => 1, fun _ _ _ => 1⟩

/-- Witness meshes for the dispatch and state-machine claims. -/
def meshWA : Mesh := ⟨0, false, false, [], [], fun _ => []⟩

def meshWB : Mesh := ⟨1, false, false, [], [], fun _ => []⟩

/-- Witness communicating pair (relative orientation 1, sigma 2,
sigma_inv 3, indicator 5). -/
def mpW : MeshPair := ⟨meshWA, meshWB, 1, 2, 3, 5⟩

/-- Witness 4-dimensional zero matrix. -/
def matW0 : SymMatrix := ⟨4, fun _ => 0⟩

/-- Two single-vertex outermost meshes forming one isolated part (for the
deflation counterexample). -/
def meshC2A : Mesh := ⟨0, false, true, [], [1], fun _ => []⟩

def meshC2B : Mesh := ⟨1, false, true, [], [2], fun _ => []⟩

/-- Counterexample geometry: one isolated part holding the two outermost
meshes above. -/
def geoC2 : Geometry := ⟨0, 0, [], [[meshC2A, meshC2B]]⟩

/-- A 3-dimensional matrix all of whose stored cells hold 4. -/
def matC2 : SymMatrix := ⟨3, fun _ => 4⟩

/-- One outermost mesh with vertices 1,2 for the deflation witness. -/
def meshW2 : Mesh := ⟨0, false, true, [], [1, 2], fun _ => []⟩

def geoW2 : Geometry := ⟨0, 0, [], [[meshW2]]⟩

/-- A second witness triangle (index 4) and a second one-triangle mesh,
vertex-disjoint from `meshW`, for the non-diagonal N witness. -/
def triW2 : Triangle := ⟨4, 1, fun _ => 0, fun _ => ⟨1, 0, 0⟩⟩

def meshND : Mesh := ⟨1, false, false, [triW2], [1], fun _ => [triW2]⟩

/-! ## Lemmas and theorems -/

lemma dotprod_comm (a b : Vect3) : dotprod a b = dotprod b a := by
  unfold dotprod; ring

lemma two_mul_tri (n : ℕ) : 2 * (n * (n + 1) / 2) = n * (n + 1) :=
  Nat.mul_div_cancel' (Even.two_dvd (Nat.even_mul_succ_self n))

lemma symIndex_of_le {i j : ℕ} (h : i ≤ j) : symIndex i j = i + j * (j + 1) / 2 :=
  if_pos h

lemma symIndex_comm (i j : ℕ) : symIndex i j = symIndex j i := by
  unfold symIndex
  rcases Nat.lt_trichotomy i j with h | h | h
  · rw [if_pos (Nat.le_of_lt h), if_neg (by omega)]
  · subst h; rfl
  · rw [if_neg (by omega), if_pos (Nat.le_of_lt h)]

lemma symIndex_lt_of_le {i j N : ℕ} (hij : i ≤ j) (hj : j < N) :
    symIndex i j < N * (N + 1) / 2 := by
  rw [symIndex_of_le hij]
  have e1 := two_mul_tri j
  have e2 := two_mul_tri N
  have h3 : (j + 1) * (j + 2) ≤ N * (N + 1) :=
    Nat.mul_le_mul (by omega) (by omega)
  have e3 : (j + 1) * (j + 2) = j * (j + 1) + 2 * (j + 1) := by ring
  omega

/-- Within an `N`-dimensional symmetric matrix, both accessors land inside
the `N*(N+1)/2` stored cells. -/
lemma symIndex_lt {i j N : ℕ} (hi : i < N) (hj : j < N) :
    symIndex i j < N * (N + 1) / 2 := by
  rcases Nat.le_total i j with h | h
  · exact symIndex_lt_of_le h hj
  · rw [symIndex_comm]; exact symIndex_lt_of_le h hi

lemma tri_add_inj {i j k l : ℕ} (hij : i ≤ j) (hkl : k ≤ l)
    (h : i + j * (j + 1) / 2 = k + l * (l + 1) / 2) : i = k ∧ j = l := by
  have e1 := two_mul_tri j
  have e2 := two_mul_tri l
  rcases Nat.lt_trichotomy j l with hl | hl | hl
  · exfalso
    have h3 : (j + 1) * (j + 2) ≤ l * (l + 1) := Nat.mul_le_mul (by omega) (by omega)
    have e3 : (j + 1) * (j + 2) = j * (j + 1) + 2 * (j + 1) := by ring
    omega
  · subst hl; exact ⟨by omega, rfl⟩
  · exfalso
    have h3 : (l + 1) * (l + 2) ≤ j * (j + 1) := Nat.mul_le_mul (by omega) (by omega)
    have e3 : (l + 1) * (l + 2) = l * (l + 1) + 2 * (l + 1) := by ring
    omega

/-- Two index pairs resolve to the same stored cell only if they are the same
unordered pair. -/
lemma symIndex_inj {i j k l : ℕ} (h : symIndex i j = symIndex k l) :
    (i = k ∧ j = l) ∨ (i = l ∧ j = k) := by
  unfold symIndex at h
  by_cases h1 : i ≤ j <;> by_cases h2 : k ≤ l <;>
    simp only [h1, h2, if_true, if_false, if_pos, if_neg, not_le] at h
  · exact Or.inl (tri_add_inj h1 h2 h)
  · exact Or.inr (tri_add_inj h1 (by omega) h)
  · exact Or.inr (by
      have := tri_add_inj (i := j) (j := i) (by omega) h2 h
      exact ⟨this.2, this.1⟩)
  · exact Or.inl (by
      have := tri_add_inj (i := j) (j := i) (by omega) (by omega) h
      exact ⟨this.2, this.1⟩)

/-- Same-row cells are distinct for distinct column indices. -/
lemma symIndex_row_inj {v a b : ℕ} (h : symIndex v a = symIndex v b) : a = b := by
  rcases symIndex_inj h with ⟨_, h2⟩ | ⟨h1, h2⟩
  · exact h2
  · omega

lemma SymMatrix.get_comm (M : SymMatrix) (i j : ℕ) : M.get i j = M.get j i := by
  unfold SymMatrix.get; rw [symIndex_comm]

lemma SymMatrix.nlin_setEntry (M : SymMatrix) (i j : ℕ) (v : ℚ) :
    (M.setEntry i j v).nlin = M.nlin := rfl

lemma SymMatrix.get_setEntry (M : SymMatrix) (i j a b : ℕ) (v : ℚ) :
    (M.setEntry i j v).get a b = if symIndex a b = symIndex i j then v else M.get a b := rfl

lemma SymMatrix.data_setEntry (M : SymMatrix) (i j : ℕ) (v : ℚ) (c : ℕ) :
    (M.setEntry i j v).data c = if c = symIndex i j then v else M.data c := rfl

lemma SymMatrix.get_setEntry_same (M : SymMatrix) (i j : ℕ) (v : ℚ) :
    (M.setEntry i j v).get i j = v := by
  rw [SymMatrix.get_setEntry, if_pos rfl]


lemma foldl_sub_eq {α : Type} (g : ℚ → α → ℚ) (f : α → ℚ)
    (hg : ∀ acc x, g acc x = acc - f x) (l : List α) (a : ℚ) :
    l.foldl g a = a - (l.map f).sum := by
  induction l generalizing a with
  | nil => simp
  | cons x xs ih => rw [List.foldl_cons, hg, ih, List.map_cons, List.sum_cons]; ring

lemma sum_map_mul_left {α : Type} (r : ℚ) (f : α → ℚ) (l : List α) :
    (l.map (fun x => r * f x)).sum = r * (l.map f).sum := by
  induction l with
  | nil => simp
  | cons x xs ih => simp [ih]; ring

/-- The nested accumulation loop of `BlocksBase::N` computes exactly
`-factor` times the double sum. -/
lemma baseNaux_eq_sum (factor : ℚ) (V1 V2 : ℕ) (m1 m2 : Mesh)
    (sread : ℕ → ℕ → ℚ) :
    baseNaux factor V1 V2 m1 m2 sread = -(factor * pairSum V1 V2 m1 m2 sread) := by
  unfold baseNaux pairSum
  rw [foldl_sub_eq _
    (fun t1 => ((m2.trianglesAt V2).map (fun t2 =>
      factor * (dotprod (t1.CB V1) (t2.CB V2) * sread t1.index t2.index
        / (t1.area * t2.area)))).sum)
    (fun acc t1 => by
      rw [foldl_sub_eq _
        (fun t2 => factor * (dotprod (t1.CB V1) (t2.CB V2) * sread t1.index t2.index
          / (t1.area * t2.area)))
        (fun acc t2 => by ring) (m2.trianglesAt V2) acc])]
  rw [show ∀ (l : List Triangle) (h : Triangle → Triangle → ℚ),
        (l.map (fun t1 => ((m2.trianglesAt V2).map (fun t2 =>
          factor * h t1 t2)).sum)).sum
      = factor * (l.map (fun t1 => ((m2.trianglesAt V2).map (fun t2 =>
          h t1 t2)).sum)).sum from by
    intro l h
    induction l with
    | nil => simp
    | cons x xs ih =>
      simp only [List.map_cons, List.sum_cons, ih]
      rw [sum_map_mul_left]
      ring]
  ring

lemma sum_map_add {β : Type} (f g : β → ℚ) (l : List β) :
    (l.map (fun b => f b + g b)).sum = (l.map f).sum + (l.map g).sum := by
  induction l with
  | nil => simp
  | cons x xs ih => simp [ih]; ring

lemma sum_sum_comm {α β : Type} (l1 : List α) (l2 : List β) (h : α → β → ℚ) :
    (l1.map (fun a => (l2.map (fun b => h a b)).sum)).sum
    = (l2.map (fun b => (l1.map (fun a => h a b)).sum)).sum := by
  induction l1 with
  | nil => induction l2 with
    | nil => simp
    | cons y ys ih2 => simp_all
  | cons x xs ih =>
    simp only [List.map_cons, List.sum_cons, ih]
    rw [sum_map_add (fun b => h x b) (fun b => (List.map (fun a => h a b) xs).sum) l2]

/-- `pairSum` is symmetric in its two vertex/mesh arguments whenever the
matrix read is symmetric. -/
lemma pairSum_comm (V1 V2 : ℕ) (m1 m2 : Mesh) (sread : ℕ → ℕ → ℚ)
    (hs : ∀ a b, sread a b = sread b a) :
    pairSum V1 V2 m1 m2 sread = pairSum V2 V1 m2 m1 sread := by
  unfold pairSum
  rw [sum_sum_comm]
  congr 1
  apply List.map_congr_left
  intro t2 _
  congr 1
  apply List.map_congr_left
  intro t1 _
  rw [dotprod_comm, hs]
  ring

/-! ## Claim theorems -/

/-- Claim C3: for every `SymMatrix` of dimension `N` and all indices
`i,j < N`, the accessors `(i,j)` and `(j,i)` resolve to the same one of the
`N(N+1)/2` stored cells, and consequently `M(i,j) == M(j,i)` exactly for
every matrix addressed through this storage. -/
theorem claim_C3_symmetric_storage (M : SymMatrix) (i j : ℕ) :
    symIndex i j = symIndex j i ∧
    (i < M.nlin → j < M.nlin → symIndex i j < M.size) ∧
    M.get i j = M.get j i :=
  ⟨symIndex_comm i j, fun hi hj => symIndex_lt hi hj, M.get_comm i j⟩

/-- Witness for C3 at the concrete matrix `matW3` and indices (1,3). -/
theorem claim_C3_witness :
    symIndex 1 3 = symIndex 3 1 ∧ symIndex 1 3 < matW3.size ∧
    matW3.get 1 3 = matW3.get 3 1 :=
  ⟨(claim_C3_symmetric_storage matW3 1 3).1,
   (claim_C3_symmetric_storage matW3 1 3).2.1 (by decide) (by decide),
   (claim_C3_symmetric_storage matW3 1 3).2.2⟩

/-- Claim C4: HeadMatrix assembly allocates its output with dimension
exactly `nb_parameters - nb_current_barrier_triangles`, and every entry is
zero before any mesh-pair block is written, whatever the uninitialized
allocation contents `g` were. -/
theorem claim_C4_init_matrix (geo : Geometry) (g : ℕ → ℚ) (i j : ℕ) :
    (initHeadMatrix geo g).nlin = geo.nbParams - geo.nbCBT ∧
    (i < geo.nbParams - geo.nbCBT → j < geo.nbParams - geo.nbCBT →
      (initHeadMatrix geo g).get i j = 0) := by
  constructor
  · rfl
  · intro hi hj
    unfold initHeadMatrix SymMatrix.get SymMatrix.setAll SymMatrix.allocG
    simp only
    rw [if_pos]
    exact symIndex_lt hi hj

/-- Witness for C4 at a concrete geometry with 7 parameters and 2
current-barrier triangles. -/
theorem claim_C4_witness :
    (initHeadMatrix geoW4 (fun c => (c : ℚ) + 5)).nlin = geoW4.nbParams - geoW4.nbCBT ∧
    (initHeadMatrix geoW4 (fun c => (c : ℚ) + 5)).get 0 1 = 0 :=
  ⟨(claim_C4_init_matrix geoW4 (fun c => (c : ℚ) + 5) 0 1).1,
   (claim_C4_init_matrix geoW4 (fun c => (c : ℚ) + 5) 0 1).2 (by decide) (by decide)⟩

/-- Counterexample to claim C1 as stated: in the same-mesh case with
`V1 == V2` the code's contribution uses factor 0.25 (the same-mesh overload
of `BlocksBase::N`), not the 0.5 the claim assigns to coinciding meshes. -/
theorem claim_C1_counterexample :
    baseNsame 0 0 meshW (fun _ _ => 1)
      ≠ -(claimNfactor true 0 0 * pairSum 0 0 meshW meshW (fun _ _ => 1)) := by
  have h1 : baseNsame 0 0 meshW (fun _ _ => 1) = -(1/4) := by
    simp [baseNsame, baseNaux, meshW, triW, dotprod]
  have h2 : pairSum 0 0 meshW meshW (fun _ _ => 1) = 1 := by
    simp [pairSum, meshW, triW, dotprod]
  rw [h1, h2]
  simp [claimNfactor]

/-- Claim C1 (amended): the hypersingular contribution accumulated at
`(V1,V2)` equals `coeff * (-factor * Σ_{T1∋V1,T2∋V2}
dot(CB1,CB2)·S(T1,T2)/(area1·area2))`, where the factor is 0.25 whenever
the same-mesh engine is used (even for `V1 == V2`), and for the two-mesh
engine 0.5 when `V1 == V2` and 0.25 otherwise. -/
theorem claim_C1_amended (coeff : ℚ) (V1 V2 : ℕ) (m m1 m2 : Mesh)
    (sread : ℕ → ℕ → ℚ) (mat : SymMatrix) :
    baseNsame V1 V2 m sread = -((1/4) * pairSum V1 V2 m m sread) ∧
    baseNdiff V1 V2 m1 m2 sread
      = -((if V1 = V2 then (1/2 : ℚ) else 1/4) * pairSum V1 V2 m1 m2 sread) ∧
    (diagNstep symOps m (fun M => M.get) coeff mat V1 V2).get V1 V2
      = mat.get V1 V2 + coeff * (-((1/4) * pairSum V1 V2 m m mat.get)) ∧
    (ndNstep symOps m1 m2 (fun M => M.get) coeff mat V1 V2).get V1 V2
      = mat.get V1 V2
        + coeff * (-((if V1 = V2 then (1/2 : ℚ) else 1/4) * pairSum V1 V2 m1 m2 mat.get)) := by
  refine ⟨baseNaux_eq_sum _ _ _ _ _ _, baseNaux_eq_sum _ _ _ _ _ _, ?_, ?_⟩
  · simp only [diagNstep, symOps]
    rw [SymMatrix.get_setEntry_same, baseNsame, baseNaux_eq_sum]
    ring
  · simp only [ndNstep, symOps]
    rw [SymMatrix.get_setEntry_same, baseNdiff, baseNaux_eq_sum]
    ring

/-- Claim C8 evaluated at the failing input: `submat(1,2)` of the 3×3 matrix
`matW8` (whose entry (1,1) is 3) returns a matrix of the right dimension 2,
but its entry (0,0) is the allocation default (0 here), not `M(1,1) = 3`:
the source loop writes `mat(i,j) = M(i,j)` at the *unshifted* indices
`i,j ∈ [istart,iend]`, which for `istart > 0` lie outside the sub-block's own
index range. -/
theorem claim_C8_submat_eval :
    (matW8.submat (fun _ => 0) 1 2).nlin = 2 ∧
    (matW8.submat (fun _ => 0) 1 2).get 0 0 = 0 ∧
    matW8.get 1 1 = 3 := by
  refine ⟨rfl, ?_, ?_⟩
  · have hr1 : List.range' 1 (2 + 1 - 1) = [1, 2] := rfl
    have hr2 : List.range' 1 (2 + 1 - 1) = [1, 2] := rfl
    have hr3 : List.range' 2 (2 + 1 - 2) = [2] := rfl
    simp only [SymMatrix.submat, hr1, hr2, hr3, List.foldl_cons, List.foldl_nil]
    simp [SymMatrix.get, SymMatrix.setEntry, SymMatrix.allocG, symIndex]
  · simp [matW8, SymMatrix.get, symIndex]
    norm_num

/-! ### Row-count lemmas for the point-evaluation builders -/

lemma foldl_nlin_eq {α : Type} (f : DenMatrix → α → DenMatrix)
    (hf : ∀ A x, (f A x).nlin = A.nlin) :
    ∀ (l : List α) (A : DenMatrix), (l.foldl f A).nlin = A.nlin := by
  intro l
  induction l with
  | nil => intro A; rfl
  | cons x xs ih => intro A; rw [List.foldl_cons, ih, hf]

lemma pblockAddD_nlin (an : PAnalytics) (m : Mesh) (c : ℚ)
    (pts : List (Vect3 × ℕ)) (A : DenMatrix) :
    (pblockAddD an m c pts A).nlin = A.nlin := by
  unfold pblockAddD
  apply foldl_nlin_eq; intro A t
  apply foldl_nlin_eq; intro A pv
  apply foldl_nlin_eq; intro A i
  rfl

lemma pblockS_nlin (an : PAnalytics) (m : Mesh) (c : ℚ)
    (pts : List (Vect3 × ℕ)) (A : DenMatrix) :
    (pblockS an m c pts A).nlin = A.nlin := by
  unfold pblockS
  apply foldl_nlin_eq; intro A t
  apply foldl_nlin_eq; intro A pv
  rfl

lemma s2vCount (g : PGeo) :
    ∀ (points : List Vect3) (grps : List (ℕ × List (Vect3 × ℕ))) (n : ℕ),
    (points.foldl (s2vStep g) (grps, n)).2
      = n + (points.filter (fun p => decide (g.cond (g.domainOf p) ≠ 0))).length := by
  intro points
  induction points with
  | nil => intro grps n; simp
  | cons p ps ih =>
    intro grps n
    rw [List.foldl_cons, List.filter_cons]
    by_cases h : g.cond (g.domainOf p) = 0
    · have hstep : s2vStep g (grps, n) p = (grps, n) := by simp [s2vStep, h]
      rw [hstep, ih]
      simp [h]
    · have hstep : s2vStep g (grps, n) p = (insertGrp grps (g.domainOf p) (p, n), n + 1) := by
        simp [s2vStep, h]
      rw [hstep, ih]
      simp only [h, decide_not, ne_eq]
      simp [h]
      omega

lemma insertGrp_sizes (grps : List (ℕ × List (Vect3 × ℕ))) (d : ℕ) (pv : Vect3 × ℕ) :
    grpSizes (insertGrp grps d pv) = grpSizes grps + 1 := by
  induction grps with
  | nil => simp [insertGrp, grpSizes]
  | cons gl rest ih =>
    obtain ⟨d', l⟩ := gl
    by_cases h : d' = d
    · simp [insertGrp, h, grpSizes]
      omega
    · simp only [insertGrp, h, if_false, grpSizes, List.map_cons, List.sum_cons] at *
      omega

lemma s2vSizes (g : PGeo) :
    ∀ (points : List Vect3) (grps : List (ℕ × List (Vect3 × ℕ))) (n : ℕ),
    grpSizes ((points.foldl (s2vStep g) (grps, n)).1)
      = grpSizes grps + (points.filter (fun p => decide (g.cond (g.domainOf p) ≠ 0))).length := by
  intro points
  induction points with
  | nil => intro grps n; simp
  | cons p ps ih =>
    intro grps n
    rw [List.foldl_cons, List.filter_cons]
    by_cases h : g.cond (g.domainOf p) = 0
    · have hstep : s2vStep g (grps, n) p = (grps, n) := by simp [s2vStep, h]
      rw [hstep, ih]
      simp [h]
    · have hstep : s2vStep g (grps, n) p = (insertGrp grps (g.domainOf p) (p, n), n + 1) := by
        simp [s2vStep, h]
      rw [hstep, ih, insertGrp_sizes]
      simp [h]
      omega

/-- Claim C9: points lying in a zero-conductivity domain are dropped and the
builders continue: the output matrix of `Surf2VolMat` and of
`DipSource2InternalPotMat` has exactly one row per retained point, and the
retained points (summed over the domain groups) are exactly the points of
nonzero-conductivity domains. -/
theorem claim_C9_point_dropping (K : ℚ) (g : PGeo) (an : PAnalytics)
    (points : List Vect3) (dipoles : List Dip) (domainName : Option ℕ) :
    (Surf2VolMat K g an points).nlin
      = (points.filter (fun p => decide (g.cond (g.domainOf p) ≠ 0))).length ∧
    grpSizes (s2vGroups g points).1
      = (points.filter (fun p => decide (g.cond (g.domainOf p) ≠ 0))).length ∧
    (DipSource2InternalPotMat K g dipoles points domainName).nlin
      = (points.filter (fun p => decide (g.cond (g.domainOf p) ≠ 0))).length := by
  refine ⟨?_, ?_, ?_⟩
  · unfold Surf2VolMat
    rw [foldl_nlin_eq]
    · show (s2vGroups g points).2 = _
      unfold s2vGroups
      rw [s2vCount]
      omega
    · intro A grp
      apply foldl_nlin_eq
      intro A om
      by_cases h : om.1.current_barrier = true
      · simp [h, pblockAddD_nlin]
      · simp [h, pblockS_nlin, pblockAddD_nlin]
  · unfold s2vGroups
    rw [s2vSizes]
    simp [grpSizes]
  · unfold DipSource2InternalPotMat
    rw [foldl_nlin_eq]
    · show (((points.map (fun p => (g.domainOf p, p))).filter
        (fun dp => decide (g.cond dp.1 ≠ 0))).length) = _
      rw [List.filter_map, List.length_map]
      congr 1
    · intro A idip
      apply foldl_nlin_eq
      intro A ipt
      by_cases h : ipt.2.1 = (match domainName with
        | some d => d
        | none => g.domainOf idip.2.pos)
      · simp only [h, if_true]; rfl
      · simp only [h, if_false]

/-! ### Claim C5: per-pair coefficients and dispatch order -/

/-- Claim C5: for every communicating mesh pair not disabled by the
selector, the orchestrator computes `factor = relative_orientation * K` and
dispatches exactly `set_S_block`, `set_N_block`, `set_D_block`,
`set_Dstar_block` in that order (the composition below, innermost first) with
the coefficients `factor*sigma_inv`, `factor*sigma`, `-(factor*indicator)`,
the D and D* blocks sharing the third. -/
theorem claim_C5_pair_dispatch (K : ℚ) (integ : Integ) (g : ℕ → ℚ)
    (g2 : ℕ → ℕ → ℚ) (disable : Mesh → Mesh → Bool) (mat : SymMatrix)
    (mp : MeshPair) (h : disable mp.mesh1 mp.mesh2 = false) :
    headStep K integ g g2 disable mat mp =
      (if mp.mesh1.meshId = mp.mesh2.meshId then
        diagSetDstar integ mp.mesh1 (-(mp.relOrient * K * mp.indicator))
          (diagSetD integ mp.mesh1 (-(mp.relOrient * K * mp.indicator))
            (diagSetN integ g mp.mesh1 (mp.relOrient * K * mp.sigma)
              (diagSetS integ mp.mesh1 (mp.relOrient * K * mp.sigmaInv) 0 mat).1
              (diagSetS integ mp.mesh1 (mp.relOrient * K * mp.sigmaInv) 0 mat).2))
      else
        ndSetDstar integ mp.mesh1 mp.mesh2 (-(mp.relOrient * K * mp.indicator))
          (ndSetD integ mp.mesh1 mp.mesh2 (-(mp.relOrient * K * mp.indicator))
            (ndSetN integ g2 mp.mesh1 mp.mesh2 (mp.relOrient * K * mp.sigma)
              (ndSetS integ mp.mesh1 mp.mesh2 (mp.relOrient * K * mp.sigmaInv) 0 mat).1
              (ndSetS integ mp.mesh1 mp.mesh2 (mp.relOrient * K * mp.sigmaInv) 0 mat).2))) := by
  simp only [headStep, h, Bool.false_eq_true, if_false, diagSetBlocks, ndSetBlocks,
    mul_assoc]

/-- Witness for C5 at the concrete pair `mpW` with `K = 7` and an
all-enabled selector. -/
theorem claim_C5_witness :
    headStep 7 integW (fun _ => 0) (fun _ _ => 0) (fun _ _ => false) matW0 mpW =
      (if mpW.mesh1.meshId = mpW.mesh2.meshId then
        diagSetDstar integW mpW.mesh1 (-(mpW.relOrient * 7 * mpW.indicator))
          (diagSetD integW mpW.mesh1 (-(mpW.relOrient * 7 * mpW.indicator))
            (diagSetN integW (fun _ => 0) mpW.mesh1 (mpW.relOrient * 7 * mpW.sigma)
              (diagSetS integW mpW.mesh1 (mpW.relOrient * 7 * mpW.sigmaInv) 0 matW0).1
              (diagSetS integW mpW.mesh1 (mpW.relOrient * 7 * mpW.sigmaInv) 0 matW0).2))
      else
        ndSetDstar integW mpW.mesh1 mpW.mesh2 (-(mpW.relOrient * 7 * mpW.indicator))
          (ndSetD integW mpW.mesh1 mpW.mesh2 (-(mpW.relOrient * 7 * mpW.indicator))
            (ndSetN integW (fun _ _ => 0) mpW.mesh1 mpW.mesh2 (mpW.relOrient * 7 * mpW.sigma)
              (ndSetS integW mpW.mesh1 mpW.mesh2 (mpW.relOrient * 7 * mpW.sigmaInv) 0 matW0).1
              (ndSetS integW mpW.mesh1 mpW.mesh2 (mpW.relOrient * 7 * mpW.sigmaInv) 0 matW0).2))) :=
  claim_C5_pair_dispatch 7 integW (fun _ => 0) (fun _ _ => 0) (fun _ _ => false) matW0 mpW rfl

/-! ### Claim C6: current_barrier no-op guards -/

lemma diagNstep_setCB {σ : Type} (ops : MatOps σ) (m : Mesh) (b : Bool)
    (sget : σ → ℕ → ℕ → ℚ) (coeff : ℚ) (mat : σ) (v1 v2 : ℕ) :
    diagNstep ops (setCB m b) sget coeff mat v1 v2
      = diagNstep ops m sget coeff mat v1 v2 := rfl

lemma diagNaux_setCB {σ : Type} (ops : MatOps σ) (m : Mesh) (b : Bool)
    (sget : σ → ℕ → ℕ → ℚ) (coeff : ℚ) :
    ∀ (l : List ℕ) (mat : σ),
    diagNaux ops (setCB m b) sget coeff l mat = diagNaux ops m sget coeff l mat := by
  intro l
  induction l with
  | nil => intro mat; rfl
  | cons v rest ih =>
    intro mat
    simp only [diagNaux]
    rw [show (fun (mat : σ) v2 => diagNstep ops (setCB m b) sget coeff mat v v2)
        = fun (mat : σ) v2 => diagNstep ops m sget coeff mat v v2 from by
      funext mat' v2; rfl]
    rw [ih]

lemma diagN_setCB {σ : Type} (ops : MatOps σ) (integ : Integ) (m : Mesh) (b : Bool)
    (g : ℕ → ℚ) (Sc c : ℚ) (mat : σ) :
    diagN ops integ (setCB m b) g Sc c mat = diagN ops integ m g Sc c mat := by
  unfold diagN
  split_ifs with h
  · rw [show (setCB m b).vertices = m.vertices from rfl, diagNaux_setCB]
  · rw [show (setCB m b).vertices = m.vertices from rfl,
      show freshDiagS integ (setCB m b) g = freshDiagS integ m g from rfl,
      diagNaux_setCB]

lemma ndNaux_setCB {σ : Type} (ops : MatOps σ) (m1 m2 : Mesh) (b c : Bool)
    (sget : σ → ℕ → ℕ → ℚ) (coeff : ℚ) (mat : σ) :
    ndNaux ops (setCB m1 b) (setCB m2 c) sget coeff mat
      = ndNaux ops m1 m2 sget coeff mat := by
  unfold ndNaux
  rw [show (setCB m1 b).vertices = m1.vertices from rfl,
    show (setCB m2 c).vertices = m2.vertices from rfl]
  rw [show (fun (mat : σ) v1 => m2.vertices.foldl
        (fun mat v2 => ndNstep ops (setCB m1 b) (setCB m2 c) sget coeff mat v1 v2) mat)
      = fun (mat : σ) v1 => m2.vertices.foldl
        (fun mat v2 => ndNstep ops m1 m2 sget coeff mat v1 v2) mat from by
    funext mat' v1
    rw [show (fun (mat : σ) v2 => ndNstep ops (setCB m1 b) (setCB m2 c) sget coeff mat v1 v2)
        = fun (mat : σ) v2 => ndNstep ops m1 m2 sget coeff mat v1 v2 from by
      funext mat'' v2; rfl]]

lemma ndN_setCB {σ : Type} (ops : MatOps σ) (integ : Integ) (m1 m2 : Mesh)
    (b c : Bool) (g2 : ℕ → ℕ → ℚ) (Sc co : ℚ) (mat : σ) :
    ndN ops integ (setCB m1 b) (setCB m2 c) g2 Sc co mat
      = ndN ops integ m1 m2 g2 Sc co mat := by
  unfold ndN
  split_ifs with h
  · rw [ndNaux_setCB]
  · rw [show freshNdS integ (setCB m1 b) (setCB m2 c) g2 = freshNdS integ m1 m2 g2 from rfl,
      ndNaux_setCB]

/-- Claim C6: for both engines, `set_S_block`, `set_D_block` and
`set_Dstar_block` leave the sink (and the `Scoeff` cache) entirely unchanged
when the relevant mesh is flagged `current_barrier` (for the non-diagonal S
block, when either mesh is), while `set_N_block` is computed regardless of
the `current_barrier` flags (its result is invariant under changing them). -/
theorem claim_C6_barrier_guards (integ : Integ) (g : ℕ → ℚ) (g2 : ℕ → ℕ → ℚ)
    (m m1 m2 : Mesh) (coeff Scoeff : ℚ) (mat : SymMatrix) :
    (m.current_barrier = true → diagSetS integ m coeff Scoeff mat = (Scoeff, mat)) ∧
    (m.current_barrier = true → diagSetD integ m coeff mat = mat) ∧
    (diagSetDstar integ m coeff mat = mat) ∧
    (∀ b b' : Bool, diagSetN integ g (setCB m b) coeff Scoeff mat
       = diagSetN integ g (setCB m b') coeff Scoeff mat) ∧
    (m1.current_barrier = true ∨ m2.current_barrier = true →
       ndSetS integ m1 m2 coeff Scoeff mat = (Scoeff, mat)) ∧
    (m1.current_barrier = true → ndSetD integ m1 m2 coeff mat = mat) ∧
    (m2.current_barrier = true → ndSetDstar integ m1 m2 coeff mat = mat) ∧
    (∀ b b' c c' : Bool, ndSetN integ g2 (setCB m1 b) (setCB m2 c) coeff Scoeff mat
       = ndSetN integ g2 (setCB m1 b') (setCB m2 c') coeff Scoeff mat) := by
  refine ⟨?_, ?_, rfl, ?_, ?_, ?_, ?_, ?_⟩
  · intro h; simp [diagSetS, h]
  · intro h; simp [diagSetD, h]
  · intro b b'
    unfold diagSetN
    rw [diagN_setCB, diagN_setCB]
  · intro h
    rcases h with h | h <;> simp [ndSetS, h]
  · intro h; simp [ndSetD, h]
  · intro h; simp [ndSetDstar, h]
  · intro b b' c c'
    unfold ndSetN
    rw [ndN_setCB, ndN_setCB]

/-- Witness for C6 at a concrete current-barrier mesh and concrete flags. -/
theorem claim_C6_witness :
    (diagSetS integW (setCB meshWA true) 5 0 matW0 = (0, matW0)) ∧
    (diagSetN integW (fun _ => 0) (setCB meshWA true) 5 0 matW0
      = diagSetN integW (fun _ => 0) (setCB meshWA false) 5 0 matW0) :=
  ⟨(claim_C6_barrier_guards integW (fun _ => 0) (fun _ _ => 0)
      (setCB meshWA true) meshWA meshWB 5 0 matW0).1 rfl,
   by
    have h := (claim_C6_barrier_guards integW (fun _ => 0) (fun _ _ => 0)
      meshWA meshWA meshWB 5 0 matW0).2.2.2.1 true false
    exact h⟩

/-! ### Claim C10: the Scoeff cache is nonzero only after a real set_S run -/

lemma runDiag_scoeff (integ : Integ) (g : ℕ → ℚ) (m : Mesh) :
    ∀ (ops : List BOp) (sc : ℚ) (mat : SymMatrix),
    (runDiag integ g m ops (sc, mat)).1 = sc ∨
    (m.current_barrier = false ∧ BOp.bS (runDiag integ g m ops (sc, mat)).1 ∈ ops) := by
  intro ops
  induction ops with
  | nil => intro sc mat; left; rfl
  | cons op rest ih =>
    intro sc mat
    cases op with
    | bS c =>
      rw [show runDiag integ g m (BOp.bS c :: rest) (sc, mat)
          = runDiag integ g m rest (diagSetS integ m c sc mat) from rfl]
      by_cases hcb : m.current_barrier = true
      · have he : diagSetS integ m c sc mat = (sc, mat) := by simp [diagSetS, hcb]
        rw [he]
        rcases ih sc mat with h | ⟨h1, h2⟩
        · exact Or.inl h
        · exact Or.inr ⟨h1, List.mem_cons_of_mem _ h2⟩
      · have hf : m.current_barrier = false := by
          simpa using hcb
        have he : diagSetS integ m c sc mat = (c, diagSop symOps integ m c mat) := by
          simp [diagSetS, hcb]
        rw [he]
        rcases ih c (diagSop symOps integ m c mat) with h | ⟨h1, h2⟩
        · refine Or.inr ⟨hf, ?_⟩
          rw [h]
          exact List.mem_cons_self _ _
        · exact Or.inr ⟨h1, List.mem_cons_of_mem _ h2⟩
    | bN c =>
      rw [show runDiag integ g m (BOp.bN c :: rest) (sc, mat)
          = runDiag integ g m rest (sc, diagSetN integ g m c sc mat) from rfl]
      rcases ih sc _ with h | ⟨h1, h2⟩
      · exact Or.inl h
      · exact Or.inr ⟨h1, List.mem_cons_of_mem _ h2⟩
    | bD c =>
      rw [show runDiag integ g m (BOp.bD c :: rest) (sc, mat)
          = runDiag integ g m rest (sc, diagSetD integ m c mat) from rfl]
      rcases ih sc _ with h | ⟨h1, h2⟩
      · exact Or.inl h
      · exact Or.inr ⟨h1, List.mem_cons_of_mem _ h2⟩
    | bDstar c =>
      rw [show runDiag integ g m (BOp.bDstar c :: rest) (sc, mat)
          = runDiag integ g m rest (sc, diagSetDstar integ m c mat) from rfl]
      rcases ih sc _ with h | ⟨h1, h2⟩
      · exact Or.inl h
      · exact Or.inr ⟨h1, List.mem_cons_of_mem _ h2⟩

lemma runNd_scoeff (integ : Integ) (g2 : ℕ → ℕ → ℚ) (m1 m2 : Mesh) :
    ∀ (ops : List BOp) (sc : ℚ) (mat : SymMatrix),
    (runNd integ g2 m1 m2 ops (sc, mat)).1 = sc ∨
    ((m1.current_barrier = false ∧ m2.current_barrier = false) ∧
      BOp.bS (runNd integ g2 m1 m2 ops (sc, mat)).1 ∈ ops) := by
  intro ops
  induction ops with
  | nil => intro sc mat; left; rfl
  | cons op rest ih =>
    intro sc mat
    cases op with
    | bS c =>
      rw [show runNd integ g2 m1 m2 (BOp.bS c :: rest) (sc, mat)
          = runNd integ g2 m1 m2 rest (ndSetS integ m1 m2 c sc mat) from rfl]
      by_cases hcb : ¬m1.current_barrier = true ∧ ¬m2.current_barrier = true
      · have hf : m1.current_barrier = false ∧ m2.current_barrier = false := by
          constructor <;> simp [hcb.1, hcb.2]
        have he : ndSetS integ m1 m2 c sc mat
            = (c, ndSop symOps integ m1 m2 c mat) := by
          simp [ndSetS, hcb.1, hcb.2]
        rw [he]
        rcases ih c (ndSop symOps integ m1 m2 c mat) with h | ⟨h1, h2⟩
        · refine Or.inr ⟨hf, ?_⟩
          rw [h]
          exact List.mem_cons_self _ _
        · exact Or.inr ⟨h1, List.mem_cons_of_mem _ h2⟩
      · have he : ndSetS integ m1 m2 c sc mat = (sc, mat) := by
          simp only [ndSetS, if_neg hcb]
        rw [he]
        rcases ih sc mat with h | ⟨h1, h2⟩
        · exact Or.inl h
        · exact Or.inr ⟨h1, List.mem_cons_of_mem _ h2⟩
    | bN c =>
      rw [show runNd integ g2 m1 m2 (BOp.bN c :: rest) (sc, mat)
          = runNd integ g2 m1 m2 rest (sc, ndSetN integ g2 m1 m2 c sc mat) from rfl]
      rcases ih sc _ with h | ⟨h1, h2⟩
      · exact Or.inl h
      · exact Or.inr ⟨h1, List.mem_cons_of_mem _ h2⟩
    | bD c =>
      rw [show runNd integ g2 m1 m2 (BOp.bD c :: rest) (sc, mat)
          = runNd integ g2 m1 m2 rest (sc, ndSetD integ m1 m2 c mat) from rfl]
      rcases ih sc _ with h | ⟨h1, h2⟩
      · exact Or.inl h
      · exact Or.inr ⟨h1, List.mem_cons_of_mem _ h2⟩
    | bDstar c =>
      rw [show runNd integ g2 m1 m2 (BOp.bDstar c :: rest) (sc, mat)
          = runNd integ g2 m1 m2 rest (sc, ndSetDstar integ m1 m2 c mat) from rfl]
      rcases ih sc _ with h | ⟨h1, h2⟩
      · exact Or.inl h
      · exact Or.inr ⟨h1, List.mem_cons_of_mem _ h2⟩

/-- Claim C10: a nonzero cached `Scoeff` can only come from a `set_S_block`
call that actually ran (so not under a `current_barrier` flag) with that
very coefficient; whenever the cache is zero (skipped or zero-coefficient
S), both `N` computations take the fresh-S branch, and the cached branch
(the only place `coeff/Scoeff` is evaluated) is taken exactly when
`Scoeff ≠ 0`, so the division is never by zero. -/
theorem claim_C10_scoeff_safety (integ : Integ) (g : ℕ → ℚ) (g2 : ℕ → ℕ → ℚ)
    (m m1 m2 : Mesh) (ops : List BOp) (mat mat' : SymMatrix) (coeff : ℚ) :
    ((runDiag integ g m ops (0, mat)).1 ≠ 0 →
      m.current_barrier = false ∧ BOp.bS (runDiag integ g m ops (0, mat)).1 ∈ ops) ∧
    ((runNd integ g2 m1 m2 ops (0, mat)).1 ≠ 0 →
      (m1.current_barrier = false ∧ m2.current_barrier = false) ∧
        BOp.bS (runNd integ g2 m1 m2 ops (0, mat)).1 ∈ ops) ∧
    (diagN symOps integ m g 0 coeff mat' =
      diagNaux symOps m (fun _ i j => symBlocOps.get (freshDiagS integ m g) i j)
        coeff m.vertices mat') ∧
    (ndN symOps integ m1 m2 g2 0 coeff mat' =
      ndNaux symOps m1 m2 (fun _ i j => blocOps.get (freshNdS integ m1 m2 g2) i j)
        coeff mat') ∧
    (∀ sc : ℚ, sc ≠ 0 →
      diagN symOps integ m g sc coeff mat'
        = diagNaux symOps m symOps.get (coeff / sc) m.vertices mat') := by
  refine ⟨?_, ?_, ?_, ?_, ?_⟩
  · intro hne
    rcases runDiag_scoeff integ g m ops 0 mat with h | h
    · exact absurd h hne
    · exact h
  · intro hne
    rcases runNd_scoeff integ g2 m1 m2 ops 0 mat with h | h
    · exact absurd h hne
    · exact h
  · simp [diagN]
  · simp [ndN]
  · intro sc hsc
    simp [diagN, hsc]

/-- Witness for C10: on a non-barrier mesh, a single `set_S_block` with
coefficient 2 leaves the cache at 2, and the provenance conclusion holds. -/
theorem claim_C10_witness :
    meshWA.current_barrier = false ∧
    BOp.bS (runDiag integW (fun _ => 0) meshWA [BOp.bS 2] (0, matW0)).1 ∈ [BOp.bS 2] :=
  (claim_C10_scoeff_safety integW (fun _ => 0) (fun _ _ => 0) meshWA meshWA meshWB
    [BOp.bS 2] matW0 matW0 1).1 (by
      simp [runDiag, diagSetS, meshWA])

/-! ### Claim C2: deflation -/

lemma exists_mem_cons_split {α : Type} {x : α} {l : List α} {p : α → Prop} :
    (∃ y ∈ x :: l, p y) ↔ p x ∨ ∃ y ∈ l, p y := by
  constructor
  · rintro ⟨y, hy, hp⟩
    rcases List.mem_cons.mp hy with h | h
    · exact Or.inl (h ▸ hp)
    · exact Or.inr ⟨y, h, hp⟩
  · rintro (h | ⟨y, hy, hp⟩)
    · exact ⟨x, List.mem_cons_self _ _, h⟩
    · exact ⟨y, List.mem_cons_of_mem _ hy, hp⟩

lemma deflateRow_get (c : ℚ) (v1 : ℕ) :
    ∀ (l : List ℕ), l.Nodup → ∀ (M : SymMatrix) (a b : ℕ),
    (deflateRow c v1 l M).get a b
      = M.get a b + (if ∃ v2 ∈ l, symIndex a b = symIndex v1 v2 then c else 0) := by
  intro l
  induction l with
  | nil => intro _ M a b; simp [deflateRow]
  | cons x xs ih =>
    intro hnd M a b
    have hx : x ∉ xs := (List.nodup_cons.mp hnd).1
    have hxs : xs.Nodup := (List.nodup_cons.mp hnd).2
    rw [show deflateRow c v1 (x :: xs) M
        = deflateRow c v1 xs (M.setEntry v1 x (M.get v1 x + c)) from rfl]
    rw [ih hxs]
    rw [SymMatrix.get_setEntry]
    by_cases hc : symIndex a b = symIndex v1 x
    · have hnotxs : ¬ ∃ v2 ∈ xs, symIndex a b = symIndex v1 v2 := by
        rintro ⟨v2, hv2, he⟩
        have : symIndex v1 x = symIndex v1 v2 := by rw [← hc, he]
        exact hx (symIndex_row_inj this ▸ hv2)
      have hex : ∃ v2 ∈ x :: xs, symIndex a b = symIndex v1 v2 :=
        ⟨x, List.mem_cons_self _ _, hc⟩
      have hgets : M.get a b = M.get v1 x := congrArg M.data hc
      rw [if_pos hc, if_neg hnotxs, if_pos hex, hgets]
      ring
    · rw [if_neg hc]
      have hiff : (∃ v2 ∈ x :: xs, symIndex a b = symIndex v1 v2)
          ↔ (∃ v2 ∈ xs, symIndex a b = symIndex v1 v2) := by
        rw [exists_mem_cons_split]
        constructor
        · rintro (h | h)
          · exact absurd h hc
          · exact h
        · exact Or.inr
      rw [if_congr hiff rfl rfl]

lemma deflateUpper_get (c : ℚ) :
    ∀ (l : List ℕ), l.Nodup → ∀ (M : SymMatrix) (a b : ℕ),
    (deflateUpper c l M).get a b
      = M.get a b + (if a ∈ l ∧ b ∈ l then c else 0) := by
  intro l
  induction l with
  | nil => intro _ M a b; simp [deflateUpper]
  | cons v rest ih =>
    intro hnd M a b
    have hv : v ∉ rest := (List.nodup_cons.mp hnd).1
    have hr : rest.Nodup := (List.nodup_cons.mp hnd).2
    rw [show deflateUpper c (v :: rest) M
        = deflateUpper c rest (deflateRow c v (v :: rest) M) from rfl]
    rw [ih hr, deflateRow_get c v (v :: rest) hnd]
    by_cases hab : a ∈ rest ∧ b ∈ rest
    · have hno : ¬ ∃ v2 ∈ v :: rest, symIndex a b = symIndex v v2 := by
        rintro ⟨v2, hv2, he⟩
        rcases symIndex_inj he with ⟨h1, h2⟩ | ⟨h1, h2⟩
        · exact hv (h1 ▸ hab.1)
        · exact hv (h2 ▸ hab.2)
      have hcons : a ∈ v :: rest ∧ b ∈ v :: rest :=
        ⟨List.mem_cons_of_mem _ hab.1, List.mem_cons_of_mem _ hab.2⟩
      rw [if_neg hno, if_pos hab, if_pos hcons]
      ring
    · by_cases hab2 : a ∈ v :: rest ∧ b ∈ v :: rest
      · rw [if_neg hab, if_pos hab2]
        have hex : ∃ v2 ∈ v :: rest, symIndex a b = symIndex v v2 := by
          rcases List.mem_cons.mp hab2.1 with ha | ha
          · exact ⟨b, hab2.2, by rw [ha]⟩
          · rcases List.mem_cons.mp hab2.2 with hb | hb
            · exact ⟨a, List.mem_cons_of_mem _ ha, by rw [hb, symIndex_comm]⟩
            · exact absurd ⟨ha, hb⟩ hab
        rw [if_pos hex]
        ring
      · rw [if_neg hab, if_neg hab2]
        have hno : ¬ ∃ v2 ∈ v :: rest, symIndex a b = symIndex v v2 := by
          rintro ⟨v2, hv2, he⟩
          rcases symIndex_inj he with ⟨h1, h2⟩ | ⟨h1, h2⟩
          · refine hab2 ⟨?_, ?_⟩
            · rw [h1]; exact List.mem_cons_self _ _
            · rw [h2]; exact hv2
          · refine hab2 ⟨?_, ?_⟩
            · rw [h1]; exact hv2
            · rw [h2]; exact List.mem_cons_self _ _
        rw [if_neg hno]
        ring

lemma deflateMeshes_get (coef : ℚ) :
    ∀ (part : List Mesh) (M : SymMatrix) (a b : ℕ),
    (∀ m ∈ part, m.outermost = true → m.vertices.Nodup) →
    (part.Pairwise (fun m m' => m.outermost = true → m'.outermost = true →
        ∀ x ∈ m.vertices, x ∉ m'.vertices)) →
    (part.foldl (fun M m => if m.outermost then deflateUpper coef m.vertices M else M) M).get a b
      = M.get a b
        + (if ∃ m ∈ part, m.outermost = true ∧ a ∈ m.vertices ∧ b ∈ m.vertices
           then coef else 0) := by
  intro part
  induction part with
  | nil => intro M a b _ _; simp
  | cons m rest ih =>
    intro M a b hnd hpw
    have hndr : ∀ m' ∈ rest, m'.outermost = true → m'.vertices.Nodup :=
      fun m' hm' => hnd m' (List.mem_cons_of_mem _ hm')
    have hpwr : rest.Pairwise _ := (List.pairwise_cons.mp hpw).2
    have hhead := (List.pairwise_cons.mp hpw).1
    rw [List.foldl_cons]
    by_cases ho : m.outermost = true
    · rw [if_pos ho, ih _ _ _ hndr hpwr,
        deflateUpper_get coef m.vertices (hnd m (List.mem_cons_self _ _) ho)]
      by_cases hin : a ∈ m.vertices ∧ b ∈ m.vertices
      · have hnorest : ¬ ∃ m' ∈ rest,
            m'.outermost = true ∧ a ∈ m'.vertices ∧ b ∈ m'.vertices := by
          rintro ⟨m', hm', ho', ha', hb'⟩
          exact hhead m' hm' ho ho' a hin.1 ha'
        have hex : ∃ m' ∈ m :: rest,
            m'.outermost = true ∧ a ∈ m'.vertices ∧ b ∈ m'.vertices :=
          ⟨m, List.mem_cons_self _ _, ho, hin⟩
        rw [if_pos hin, if_neg hnorest, if_pos hex]
        ring
      · rw [if_neg hin]
        have hiff : (∃ m' ∈ m :: rest,
            m'.outermost = true ∧ a ∈ m'.vertices ∧ b ∈ m'.vertices)
            ↔ ∃ m' ∈ rest, m'.outermost = true ∧ a ∈ m'.vertices ∧ b ∈ m'.vertices := by
          rw [exists_mem_cons_split]
          constructor
          · rintro (⟨_, h⟩ | h)
            · exact absurd h hin
            · exact h
          · exact Or.inr
        rw [if_congr hiff rfl rfl]
        ring
    · rw [if_neg ho, ih _ _ _ hndr hpwr]
      have hiff : (∃ m' ∈ m :: rest,
          m'.outermost = true ∧ a ∈ m'.vertices ∧ b ∈ m'.vertices)
          ↔ ∃ m' ∈ rest, m'.outermost = true ∧ a ∈ m'.vertices ∧ b ∈ m'.vertices := by
        rw [exists_mem_cons_split]
        constructor
        · rintro (⟨h, _⟩ | h)
          · exact absurd h ho
          · exact h
        · exact Or.inr
      rw [if_congr hiff rfl rfl]

lemma deflatePart_get (M : SymMatrix) (part : List Mesh) (a b : ℕ)
    (hnd : ∀ m ∈ part, m.outermost = true → m.vertices.Nodup)
    (hpw : part.Pairwise (fun m m' => m.outermost = true → m'.outermost = true →
        ∀ x ∈ m.vertices, x ∉ m'.vertices)) :
    (deflatePart M part).get a b
      = M.get a b
        + (if ∃ m ∈ part, m.outermost = true ∧ a ∈ m.vertices ∧ b ∈ m.vertices
           then partCoef M part else 0) :=
  deflateMeshes_get (partCoef M part) part M a b hnd hpw

lemma deflateRow_nlin (c : ℚ) (v1 : ℕ) :
    ∀ (l : List ℕ) (M : SymMatrix), (deflateRow c v1 l M).nlin = M.nlin := by
  intro l
  induction l with
  | nil => intro M; rfl
  | cons x xs ih => intro M; exact ih _

lemma deflateUpper_nlin (c : ℚ) :
    ∀ (l : List ℕ) (M : SymMatrix), (deflateUpper c l M).nlin = M.nlin := by
  intro l
  induction l with
  | nil => intro M; rfl
  | cons v rest ih =>
    intro M
    show (deflateUpper c rest _).nlin = _
    rw [ih, deflateRow_nlin]

lemma deflateMeshes_nlin (coef : ℚ) :
    ∀ (part : List Mesh) (M : SymMatrix),
    (part.foldl (fun M m => if m.outermost then deflateUpper coef m.vertices M else M)
      M).nlin = M.nlin := by
  intro part
  induction part with
  | nil => intro M; rfl
  | cons m rest ih =>
    intro M
    rw [List.foldl_cons, ih]
    by_cases h : m.outermost = true
    · rw [if_pos h, deflateUpper_nlin]
    · rw [if_neg h]

lemma deflatePart_nlin (M : SymMatrix) (part : List Mesh) :
    (deflatePart M part).nlin = M.nlin :=
  deflateMeshes_nlin (partCoef M part) part M

lemma deflate_nlin (M : SymMatrix) (geo : Geometry) :
    (deflate M geo).nlin = M.nlin := by
  unfold deflate
  generalize geo.parts = parts
  induction parts generalizing M with
  | nil => rfl
  | cons p rest ih => rw [List.foldl_cons, ih, deflatePart_nlin]

lemma deflate_fold_get :
    ∀ (parts : List (List Mesh)) (M : SymMatrix) (a b : ℕ),
    (∀ part ∈ parts, ∀ m ∈ part, m.outermost = true → m.vertices.Nodup) →
    (∀ part ∈ parts, part.Pairwise (fun m m' => m.outermost = true →
        m'.outermost = true → ∀ x ∈ m.vertices, x ∉ m'.vertices)) →
    (parts.Pairwise (fun p q => ∀ m ∈ p, m.outermost = true →
        ∀ m' ∈ q, m'.outermost = true → ∀ x ∈ m.vertices, x ∉ m'.vertices)) →
    (∀ part ∈ parts, ∃ m ∈ part, m.outermost = true ∧ partIFirst part ∈ m.vertices) →
    (parts.foldl deflatePart M).get a b = M.get a b + deflateDelta M parts a b := by
  intro parts
  induction parts with
  | nil => intro M a b _ _ _ _; simp [deflateDelta]
  | cons p rest ih =>
    intro M a b hnd hin hcross hif
    have hndp := hnd p (List.mem_cons_self _ _)
    have hinp := hin p (List.mem_cons_self _ _)
    have hndr : ∀ part ∈ rest, ∀ m ∈ part, m.outermost = true → m.vertices.Nodup :=
      fun part hp => hnd part (List.mem_cons_of_mem _ hp)
    have hinr : ∀ part ∈ rest, part.Pairwise _ :=
      fun part hp => hin part (List.mem_cons_of_mem _ hp)
    have hcrossr := (List.pairwise_cons.mp hcross).2
    have hcrosshead := (List.pairwise_cons.mp hcross).1
    have hifr : ∀ part ∈ rest, ∃ m ∈ part,
        m.outermost = true ∧ partIFirst part ∈ m.vertices :=
      fun part hp => hif part (List.mem_cons_of_mem _ hp)
    rw [List.foldl_cons, ih _ _ _ hndr hinr hcrossr hifr,
      deflatePart_get M p a b hndp hinp]
    have hstable : deflateDelta (deflatePart M p) rest a b = deflateDelta M rest a b := by
      unfold deflateDelta
      congr 1
      apply List.map_congr_left
      intro q hq
      have hcoef : partCoef (deflatePart M p) q = partCoef M q := by
        unfold partCoef
        rw [deflatePart_get M p _ _ hndp hinp]
        have hno : ¬ ∃ m ∈ p, m.outermost = true ∧
            partIFirst q ∈ m.vertices ∧ partIFirst q ∈ m.vertices := by
          rintro ⟨m, hm, ho, hv, -⟩
          obtain ⟨m', hm', ho', hv'⟩ := hifr q hq
          exact hcrosshead q hq m hm ho m' hm' ho' _ hv hv'
        rw [if_neg hno, add_zero]
      rw [hcoef]
    rw [hstable]
    unfold deflateDelta
    rw [List.map_cons, List.sum_cons]
    ring

/-- Counterexample to claim C2 as stated: for a part with two outermost
meshes (vertices {1} and {2}), the cross-mesh entry (1,2) is *not*
incremented by `coef` — the deflation double loop runs within each
outermost mesh separately. -/
theorem claim_C2_counterexample :
    (deflate matC2 geoC2).get 1 2
      ≠ matC2.get 1 2 + partCoef matC2 [meshC2A, meshC2B] := by
  have h1 : (deflate matC2 geoC2).get 1 2 = 4 := by
    have := deflate_fold_get [[meshC2A, meshC2B]] matC2 1 2
      (by
        intro part hp m hm ho
        simp only [List.mem_singleton] at hp
        subst hp
        rcases List.mem_cons.mp hm with h | h
        · subst h; simp [meshC2A]
        · simp only [List.mem_singleton] at h; subst h; simp [meshC2B])
      (by
        intro part hp
        simp only [List.mem_singleton] at hp
        subst hp
        refine List.pairwise_cons.mpr ⟨?_, ?_⟩
        · intro m' hm'
          simp only [List.mem_singleton] at hm'
          subst hm'
          intro _ _ x hx
          simp [meshC2A] at hx
          simp [meshC2B, hx]
        · simp)
      (by simp)
      (by
        intro part hp
        simp only [List.mem_singleton] at hp
        subst hp
        refine ⟨meshC2A, List.mem_cons_self _ _, rfl, ?_⟩
        simp [partIFirst, meshC2A, meshC2B])
    rw [show deflate matC2 geoC2 = ([[meshC2A, meshC2B]]).foldl deflatePart matC2 from rfl] at *
    rw [this]
    have hdelta : deflateDelta matC2 [[meshC2A, meshC2B]] 1 2 = 0 := by
      unfold deflateDelta
      simp only [List.map_cons, List.map_nil, List.sum_cons, List.sum_nil]
      rw [if_neg]
      · ring
      · rintro ⟨m, hm, ho, h1, h2⟩
        rcases List.mem_cons.mp hm with h | h
        · subst h; simp [meshC2A] at h2
        · simp only [List.mem_singleton] at h; subst h; simp [meshC2B] at h1
    rw [hdelta]
    simp [matC2, SymMatrix.get]
  have h2 : partCoef matC2 [meshC2A, meshC2B] = 2 := by
    unfold partCoef
    have hif : partIFirst [meshC2A, meshC2B] = 1 := by
      simp [partIFirst, meshC2A, meshC2B]
    have hnb : partNbVertices [meshC2A, meshC2B] = 2 := by
      simp [partNbVertices, meshC2A, meshC2B]
    rw [hif, hnb]
    simp [matC2, SymMatrix.get]
    norm_num
  rw [h1, h2]
  have h3 : matC2.get 1 2 = 4 := rfl
  rw [h3]
  norm_num

/-- Claim C2 (amended): after deflation, for each maximal isolated group and
each *single* outermost mesh of that group, every entry `M(v1,v2)` with both
indices vertices of that same outermost mesh is increased by exactly
`coef = M(i_first,i_first)/nb_vertices_in_group` (`i_first` found by the
code's zero-sentinel scan over the group's outermost meshes, `nb` counting
all the group's outermost-mesh vertices); entries pairing vertices of two
different outermost meshes, and entries not involving such vertices, are
unchanged, and the matrix dimension is unchanged.  Stated under the
geometry invariants: vertex lists without duplicates, outermost vertex sets
disjoint within and across groups, and `i_first` a vertex of one of the
group's outermost meshes. -/
theorem claim_C2_deflation_amended (geo : Geometry) (M : SymMatrix) (a b : ℕ)
    (hnd : ∀ part ∈ geo.parts, ∀ m ∈ part, m.outermost = true → m.vertices.Nodup)
    (hin : ∀ part ∈ geo.parts, part.Pairwise (fun m m' => m.outermost = true →
        m'.outermost = true → ∀ x ∈ m.vertices, x ∉ m'.vertices))
    (hcross : geo.parts.Pairwise (fun p q => ∀ m ∈ p, m.outermost = true →
        ∀ m' ∈ q, m'.outermost = true → ∀ x ∈ m.vertices, x ∉ m'.vertices))
    (hif : ∀ part ∈ geo.parts, ∃ m ∈ part,
        m.outermost = true ∧ partIFirst part ∈ m.vertices) :
    (deflate M geo).nlin = M.nlin ∧
    (deflate M geo).get a b = M.get a b + deflateDelta M geo.parts a b :=
  ⟨deflate_nlin M geo, deflate_fold_get geo.parts M a b hnd hin hcross hif⟩

/-- Witness for C2 at the one-part, one-outermost-mesh geometry `geoW2`. -/
theorem claim_C2_witness :
    (deflate matC2 geoW2).nlin = matC2.nlin ∧
    (deflate matC2 geoW2).get 1 2 = matC2.get 1 2 + deflateDelta matC2 geoW2.parts 1 2 :=
  claim_C2_deflation_amended geoW2 matC2 1 2
    (by
      intro part hp m hm ho
      simp only [geoW2, List.mem_singleton] at hp
      subst hp
      simp only [List.mem_singleton] at hm
      subst hm
      simp [meshW2])
    (by
      intro part hp
      simp only [geoW2, List.mem_singleton] at hp
      subst hp
      simp)
    (by simp [geoW2])
    (by
      intro part hp
      simp only [geoW2, List.mem_singleton] at hp
      subst hp
      refine ⟨meshW2, List.mem_cons_self _ _, rfl, ?_⟩
      simp [partIFirst, meshW2])

/-! ### Claim C7: N derived from cached or temporary S -/

lemma pairSum_congr (V1 V2 : ℕ) (m1 m2 : Mesh) (r r' : ℕ → ℕ → ℚ)
    (h : ∀ t1 ∈ m1.trianglesAt V1, ∀ t2 ∈ m2.trianglesAt V2,
      r t1.index t2.index = r' t1.index t2.index) :
    pairSum V1 V2 m1 m2 r = pairSum V1 V2 m1 m2 r' := by
  unfold pairSum
  congr 1
  apply List.map_congr_left
  intro t1 ht1
  congr 1
  apply List.map_congr_left
  intro t2 ht2
  rw [h t1 ht1 t2 ht2]

lemma baseNaux_congr (f : ℚ) (V1 V2 : ℕ) (m1 m2 : Mesh) (r r' : ℕ → ℕ → ℚ)
    (h : ∀ t1 ∈ m1.trianglesAt V1, ∀ t2 ∈ m2.trianglesAt V2,
      r t1.index t2.index = r' t1.index t2.index) :
    baseNaux f V1 V2 m1 m2 r = baseNaux f V1 V2 m1 m2 r' := by
  rw [baseNaux_eq_sum, baseNaux_eq_sum, pairSum_congr V1 V2 m1 m2 r r' h]

lemma baseNsame_comm (V1 V2 : ℕ) (m : Mesh) (r : ℕ → ℕ → ℚ)
    (hr : ∀ a b, r a b = r b a) :
    baseNsame V1 V2 m r = baseNsame V2 V1 m r := by
  unfold baseNsame
  rw [baseNaux_eq_sum, baseNaux_eq_sum, pairSum_comm V1 V2 m m r hr]

lemma upperPairs_mem {α : Type} :
    ∀ (l : List α) (p : α × α), p ∈ upperPairs l → p.1 ∈ l ∧ p.2 ∈ l := by
  intro l
  induction l with
  | nil => intro p hp; simp [upperPairs] at hp
  | cons x xs ih =>
    intro p hp
    rcases List.mem_append.mp hp with h | h
    · obtain ⟨y, hy, he⟩ := List.mem_map.mp h
      rw [← he]
      exact ⟨List.mem_cons_self _ _, hy⟩
    · have := ih p h
      exact ⟨List.mem_cons_of_mem _ this.1, List.mem_cons_of_mem _ this.2⟩

lemma diagNrow_data (m : Mesh) (sget : SymMatrix → ℕ → ℕ → ℚ) (coeff : ℚ) (v1 : ℕ) :
    ∀ (ys : List ℕ) (mat : SymMatrix) (c : ℕ),
    (∀ y ∈ ys, c ≠ symIndex v1 y) →
    (ys.foldl (fun mat v2 => diagNstep symOps m sget coeff mat v1 v2) mat).data c
      = mat.data c := by
  intro ys
  induction ys with
  | nil => intro mat c _; rfl
  | cons y ys' ih =>
    intro mat c hc
    rw [List.foldl_cons, ih _ _ (fun y' hy' => hc y' (List.mem_cons_of_mem _ hy'))]
    show (mat.setEntry v1 y _).data c = mat.data c
    rw [SymMatrix.data_setEntry, if_neg (hc y (List.mem_cons_self _ _))]

lemma diagNrow_get (m : Mesh) (sget : SymMatrix → ℕ → ℕ → ℚ) (coeff : ℚ)
    (L : List ℕ)
    (hstab : ∀ (M M' : SymMatrix),
      (∀ c, (∀ x ∈ L, ∀ z ∈ L, c ≠ symIndex x z) → M.data c = M'.data c) →
      ∀ w1 ∈ L, ∀ w2 ∈ L, baseNsame w1 w2 m (sget M) = baseNsame w1 w2 m (sget M'))
    (v1 : ℕ) (hv1 : v1 ∈ L) :
    ∀ (ys : List ℕ), ys.Nodup → (∀ y ∈ ys, y ∈ L) → ∀ (mat : SymMatrix),
    ∀ y ∈ ys,
    (ys.foldl (fun mat v2 => diagNstep symOps m sget coeff mat v1 v2) mat).get v1 y
      = mat.get v1 y + baseNsame v1 y m (sget mat) * coeff := by
  intro ys
  induction ys with
  | nil => intro _ _ mat y hy; simp at hy
  | cons y0 ys' ih =>
    intro hnd hsub mat y hy
    have hy0 : y0 ∉ ys' := (List.nodup_cons.mp hnd).1
    have hnd' : ys'.Nodup := (List.nodup_cons.mp hnd).2
    have hsub' : ∀ z ∈ ys', z ∈ L := fun z hz => hsub z (List.mem_cons_of_mem _ hz)
    rw [List.foldl_cons]
    rcases List.mem_cons.mp hy with rfl | hy'
    · -- the head write: later writes of this row never touch this cell
      have hframe : ∀ y' ∈ ys', symIndex v1 y ≠ symIndex v1 y' := by
        intro y' hy' he
        exact hy0 (symIndex_row_inj he ▸ hy')
      have hdata := diagNrow_data m sget coeff v1 ys'
        (diagNstep symOps m sget coeff mat v1 y) (symIndex v1 y) hframe
      calc (List.foldl (fun mat v2 => diagNstep symOps m sget coeff mat v1 v2)
              (diagNstep symOps m sget coeff mat v1 y) ys').get v1 y
          = (diagNstep symOps m sget coeff mat v1 y).data (symIndex v1 y) := hdata
        _ = mat.get v1 y + baseNsame v1 y m (sget mat) * coeff := by
            rw [show diagNstep symOps m sget coeff mat v1 y
                = mat.setEntry v1 y (mat.get v1 y + baseNsame v1 y m (sget mat) * coeff)
                from rfl]
            rw [SymMatrix.data_setEntry, if_pos rfl]
    · -- a later write: the head write does not touch its cell nor the S reads
      have hcell : symIndex v1 y ≠ symIndex v1 y0 := by
        intro he
        exact hy0 (symIndex_row_inj he ▸ hy')
      rw [ih hnd' hsub' _ y hy']
      have hg : (diagNstep symOps m sget coeff mat v1 y0).get v1 y = mat.get v1 y := by
        rw [show diagNstep symOps m sget coeff mat v1 y0
            = mat.setEntry v1 y0 (mat.get v1 y0 + baseNsame v1 y0 m (sget mat) * coeff)
            from rfl]
        rw [SymMatrix.get_setEntry, if_neg hcell]
      have hb : baseNsame v1 y m (sget (diagNstep symOps m sget coeff mat v1 y0))
          = baseNsame v1 y m (sget mat) := by
        refine hstab _ _ ?_ v1 hv1 y (hsub y hy)
        intro c hc
        rw [show diagNstep symOps m sget coeff mat v1 y0
            = mat.setEntry v1 y0 (mat.get v1 y0 + baseNsame v1 y0 m (sget mat) * coeff)
            from rfl]
        rw [SymMatrix.data_setEntry,
          if_neg (hc v1 hv1 y0 (hsub y0 (List.mem_cons_self _ _)))]
      rw [hg, hb]

lemma diagNaux_data (m : Mesh) (sget : SymMatrix → ℕ → ℕ → ℚ) (coeff : ℚ) :
    ∀ (l : List ℕ) (mat : SymMatrix) (c : ℕ),
    (∀ x ∈ l, ∀ z ∈ l, c ≠ symIndex x z) →
    (diagNaux symOps m sget coeff l mat).data c = mat.data c := by
  intro l
  induction l with
  | nil => intro mat c _; rfl
  | cons v rest ih =>
    intro mat c hc
    rw [show diagNaux symOps m sget coeff (v :: rest) mat
        = diagNaux symOps m sget coeff rest
            ((v :: rest).foldl (fun mat v2 => diagNstep symOps m sget coeff mat v v2) mat)
        from rfl]
    rw [ih _ _ (fun x hx z hz =>
      hc x (List.mem_cons_of_mem _ hx) z (List.mem_cons_of_mem _ hz))]
    exact diagNrow_data m sget coeff v (v :: rest) mat c
      (fun y hy => hc v (List.mem_cons_self _ _) y hy)

lemma diagNaux_get (m : Mesh) (sget : SymMatrix → ℕ → ℕ → ℚ) (coeff : ℚ)
    (L : List ℕ)
    (hstab : ∀ (M M' : SymMatrix),
      (∀ c, (∀ x ∈ L, ∀ z ∈ L, c ≠ symIndex x z) → M.data c = M'.data c) →
      ∀ w1 ∈ L, ∀ w2 ∈ L, baseNsame w1 w2 m (sget M) = baseNsame w1 w2 m (sget M'))
    (hsymB : ∀ (M : SymMatrix), ∀ w1 w2, baseNsame w1 w2 m (sget M)
      = baseNsame w2 w1 m (sget M)) :
    ∀ (l : List ℕ), l.Nodup → (∀ x ∈ l, x ∈ L) → ∀ (mat : SymMatrix) (i j : ℕ),
    (diagNaux symOps m sget coeff l mat).get i j
      = mat.get i j
        + (if i ∈ l ∧ j ∈ l then baseNsame i j m (sget mat) * coeff else 0) := by
  intro l
  induction l with
  | nil => intro _ _ mat i j; simp [diagNaux]
  | cons v rest ih =>
    intro hnd hsub mat i j
    have hv : v ∉ rest := (List.nodup_cons.mp hnd).1
    have hnd' : rest.Nodup := (List.nodup_cons.mp hnd).2
    have hsub' : ∀ x ∈ rest, x ∈ L := fun x hx => hsub x (List.mem_cons_of_mem _ hx)
    have hvL : v ∈ L := hsub v (List.mem_cons_self _ _)
    rw [show diagNaux symOps m sget coeff (v :: rest) mat
        = diagNaux symOps m sget coeff rest
            ((v :: rest).foldl (fun mat v2 => diagNstep symOps m sget coeff mat v v2) mat)
        from rfl]
    rw [ih hnd' hsub' _ i j]
    have hrowdata : ∀ c, (∀ x ∈ L, ∀ z ∈ L, c ≠ symIndex x z) →
        ((v :: rest).foldl (fun mat v2 => diagNstep symOps m sget coeff mat v v2) mat).data c
          = mat.data c := by
      intro c hc
      exact diagNrow_data m sget coeff v (v :: rest) mat c
        (fun y hy => hc v hvL y (hsub y hy))
    by_cases hij : i ∈ rest ∧ j ∈ rest
    · -- both strictly later: this row does not touch the cell, deltas agree
      have hcell : ∀ y ∈ v :: rest, symIndex i j ≠ symIndex v y := by
        intro y hy he
        rcases symIndex_inj he with ⟨h1, h2⟩ | ⟨h1, h2⟩
        · exact hv (h1 ▸ hij.1)
        · exact hv (h2 ▸ hij.2)
      have hg : ((v :: rest).foldl (fun mat v2 => diagNstep symOps m sget coeff mat v v2)
            mat).get i j = mat.get i j :=
        diagNrow_data m sget coeff v (v :: rest) mat (symIndex i j) hcell
      have hbt : ∀ w1 ∈ L, ∀ w2 ∈ L,
          baseNsame w1 w2 m (sget ((v :: rest).foldl
            (fun mat v2 => diagNstep symOps m sget coeff mat v v2) mat))
          = baseNsame w1 w2 m (sget mat) := hstab _ _ hrowdata
      rw [hg, if_pos hij,
        if_pos ⟨List.mem_cons_of_mem _ hij.1, List.mem_cons_of_mem _ hij.2⟩,
        hbt i (hsub' i hij.1) j (hsub' j hij.2)]
    · by_cases hij2 : i ∈ v :: rest ∧ j ∈ v :: rest
      · rw [if_neg hij, if_pos hij2, add_zero]
        rcases List.mem_cons.mp hij2.1 with rfl | hi
        · -- i = v: the row wrote exactly this cell
          rw [diagNrow_get m sget coeff L hstab i hvL (i :: rest) hnd hsub mat j hij2.2]
        · -- i ∈ rest, so j = v
          rcases List.mem_cons.mp hij2.2 with rfl | hj
          · have hrow := diagNrow_get m sget coeff L hstab j hvL (j :: rest) hnd hsub mat i
              (List.mem_cons_of_mem _ hi)
            calc ((j :: rest).foldl (fun mat v2 => diagNstep symOps m sget coeff mat j v2)
                    mat).get i j
                = ((j :: rest).foldl (fun mat v2 => diagNstep symOps m sget coeff mat j v2)
                    mat).get j i := SymMatrix.get_comm _ i j
              _ = mat.get j i + baseNsame j i m (sget mat) * coeff := hrow
              _ = mat.get i j + baseNsame i j m (sget mat) * coeff := by
                  rw [SymMatrix.get_comm mat j i, hsymB mat j i]
          · exact absurd ⟨hi, hj⟩ hij
      · rw [if_neg hij, if_neg hij2]
        have hcell : ∀ y ∈ v :: rest, symIndex i j ≠ symIndex v y := by
          intro y hy he
          rcases symIndex_inj he with ⟨h1, h2⟩ | ⟨h1, h2⟩
          · refine hij2 ⟨?_, ?_⟩
            · rw [h1]; exact List.mem_cons_self _ _
            · rw [h2]; exact hy
          · refine hij2 ⟨?_, ?_⟩
            · rw [h1]; exact hy
            · rw [h2]; exact List.mem_cons_self _ _
        have hg : ((v :: rest).foldl (fun mat v2 => diagNstep symOps m sget coeff mat v v2)
              mat).get i j = mat.get i j :=
          diagNrow_data m sget coeff v (v :: rest) mat (symIndex i j) hcell
        rw [hg]

lemma symBloc_get_eq (sb : SymBloc) (i j : ℕ) :
    symBlocOps.get sb i j = sb.base.data (symIndex (i - sb.offset) (j - sb.offset)) := rfl

lemma sblocRow_offset (integ : Integ) (c : ℚ) (t1 : Triangle) :
    ∀ (ys : List Triangle) (sb : SymBloc),
    (ys.foldl (fun sb t2 => symBlocOps.set sb t1.index t2.index
      (integ.S t1.index t2.index * c)) sb).offset = sb.offset := by
  intro ys
  induction ys with
  | nil => intro sb; rfl
  | cons t2 ys' ih =>
    intro sb
    rw [List.foldl_cons, ih]
    rfl

lemma sblocRow_data (integ : Integ) (c : ℚ) (t1 : Triangle) :
    ∀ (ys : List Triangle) (sb : SymBloc) (cell : ℕ),
    (∀ t2 ∈ ys, cell ≠ symIndex (t1.index - sb.offset) (t2.index - sb.offset)) →
    (ys.foldl (fun sb t2 => symBlocOps.set sb t1.index t2.index
      (integ.S t1.index t2.index * c)) sb).base.data cell = sb.base.data cell := by
  intro ys
  induction ys with
  | nil => intro sb cell _; rfl
  | cons t2 ys' ih =>
    intro sb cell hc
    rw [List.foldl_cons]
    rw [ih (symBlocOps.set sb t1.index t2.index (integ.S t1.index t2.index * c)) cell
      (fun t2' ht2' => hc t2' (List.mem_cons_of_mem _ ht2'))]
    show (sb.base.setEntry (t1.index - sb.offset) (t2.index - sb.offset)
      (integ.S t1.index t2.index * c)).data cell = sb.base.data cell
    rw [SymMatrix.data_setEntry, if_neg (hc t2 (List.mem_cons_self _ _))]

lemma sblocRow_get (integ : Integ) (c : ℚ) (t1 : Triangle) :
    ∀ (ys : List Triangle) (sb : SymBloc),
    ((ys.map Triangle.index).Nodup) → (∀ t ∈ ys, sb.offset ≤ t.index) →
    ∀ t2 ∈ ys,
    symBlocOps.get (ys.foldl (fun sb t2 => symBlocOps.set sb t1.index t2.index
      (integ.S t1.index t2.index * c)) sb) t1.index t2.index
      = integ.S t1.index t2.index * c := by
  intro ys
  induction ys with
  | nil => intro _ _ _ t2 ht2; simp at ht2
  | cons t0 ys' ih =>
    intro sb hnd hge t2 ht2
    have hnotin : t0.index ∉ ys'.map Triangle.index := by
      rw [List.map_cons] at hnd
      exact (List.nodup_cons.mp hnd).1
    have hnd' : (ys'.map Triangle.index).Nodup := by
      rw [List.map_cons] at hnd
      exact (List.nodup_cons.mp hnd).2
    have hge' : ∀ t ∈ ys', sb.offset ≤ t.index :=
      fun t ht => hge t (List.mem_cons_of_mem _ ht)
    rw [List.foldl_cons]
    rcases List.mem_cons.mp ht2 with rfl | ht2'
    · -- head write, framed through the remaining row writes
      have hoff : (ys'.foldl (fun sb t2' => symBlocOps.set sb t1.index t2'.index
          (integ.S t1.index t2'.index * c))
          (symBlocOps.set sb t1.index t2.index (integ.S t1.index t2.index * c))).offset
          = sb.offset := sblocRow_offset integ c t1 ys' _
      rw [symBloc_get_eq, hoff]
      have hframe : ∀ t2' ∈ ys',
          symIndex (t1.index - sb.offset) (t2.index - sb.offset)
            ≠ symIndex (t1.index - sb.offset) (t2'.index - sb.offset) := by
        intro t2' ht2' he
        have := symIndex_row_inj he
        have hidx : t2.index = t2'.index := by
          have h1 := hge t2 (List.mem_cons_self _ _)
          have h2 := hge' t2' ht2'
          omega
        exact hnotin (hidx ▸ List.mem_map_of_mem Triangle.index ht2')
      rw [sblocRow_data integ c t1 ys'
        (symBlocOps.set sb t1.index t2.index (integ.S t1.index t2.index * c))
        (symIndex (t1.index - sb.offset) (t2.index - sb.offset)) hframe]
      show (sb.base.setEntry (t1.index - sb.offset) (t2.index - sb.offset)
        (integ.S t1.index t2.index * c)).data
          (symIndex (t1.index - sb.offset) (t2.index - sb.offset)) = _
      rw [SymMatrix.data_setEntry, if_pos rfl]
    · exact ih (symBlocOps.set sb t1.index t0.index (integ.S t1.index t0.index * c))
        hnd' (fun t ht => hge' t ht) t2 ht2'

lemma diagSaux_offset (integ : Integ) (c : ℚ) :
    ∀ (l : List Triangle) (sb : SymBloc),
    (diagSaux symBlocOps integ c l sb).offset = sb.offset := by
  intro l
  induction l with
  | nil => intro sb; rfl
  | cons t rest ih =>
    intro sb
    rw [show diagSaux symBlocOps integ c (t :: rest) sb
        = diagSaux symBlocOps integ c rest
            ((t :: rest).foldl (fun sb t2 => symBlocOps.set sb t.index t2.index
              (integ.S t.index t2.index * c)) sb) from rfl]
    rw [ih, sblocRow_offset]

lemma diagSaux_data (integ : Integ) (c : ℚ) :
    ∀ (l : List Triangle) (sb : SymBloc) (cell : ℕ),
    (∀ p ∈ upperPairs l,
      cell ≠ symIndex (p.1.index - sb.offset) (p.2.index - sb.offset)) →
    (diagSaux symBlocOps integ c l sb).base.data cell = sb.base.data cell := by
  intro l
  induction l with
  | nil => intro sb cell _; rfl
  | cons t rest ih =>
    intro sb cell hc
    rw [show diagSaux symBlocOps integ c (t :: rest) sb
        = diagSaux symBlocOps integ c rest
            ((t :: rest).foldl (fun sb t2 => symBlocOps.set sb t.index t2.index
              (integ.S t.index t2.index * c)) sb) from rfl]
    have ho := sblocRow_offset integ c t (t :: rest) sb
    rw [ih _ _ (by
      intro p hp
      rw [ho]
      exact hc p (List.mem_append_right _ hp))]
    exact sblocRow_data integ c t (t :: rest) sb cell (by
      intro t2 ht2
      exact hc (t, t2) (List.mem_append_left _
        (List.mem_map_of_mem (fun y => (t, y)) ht2)))

lemma diagSaux_get (integ : Integ) (c : ℚ) :
    ∀ (l : List Triangle) (sb : SymBloc),
    ((l.map Triangle.index).Nodup) → (∀ t ∈ l, sb.offset ≤ t.index) →
    ∀ p ∈ upperPairs l,
    symBlocOps.get (diagSaux symBlocOps integ c l sb) p.1.index p.2.index
      = integ.S p.1.index p.2.index * c := by
  intro l
  induction l with
  | nil => intro _ _ _ p hp; simp [upperPairs] at hp
  | cons t rest ih =>
    intro sb hnd hge p hp
    have hnotin : t.index ∉ rest.map Triangle.index := by
      rw [List.map_cons] at hnd
      exact (List.nodup_cons.mp hnd).1
    have hnd' : (rest.map Triangle.index).Nodup := by
      rw [List.map_cons] at hnd
      exact (List.nodup_cons.mp hnd).2
    have hge' : ∀ t' ∈ rest, sb.offset ≤ t'.index :=
      fun t' ht' => hge t' (List.mem_cons_of_mem _ ht')
    rw [show diagSaux symBlocOps integ c (t :: rest) sb
        = diagSaux symBlocOps integ c rest
            ((t :: rest).foldl (fun sb t2 => symBlocOps.set sb t.index t2.index
              (integ.S t.index t2.index * c)) sb) from rfl]
    have ho := sblocRow_offset integ c t (t :: rest) sb
    rcases List.mem_append.mp hp with hleft | hright
    · obtain ⟨y, hy, he⟩ := List.mem_map.mp hleft
      have hrow := sblocRow_get integ c t (t :: rest) sb hnd hge y hy
      have hframe : ∀ q ∈ upperPairs rest,
          symIndex (t.index - sb.offset) (y.index - sb.offset)
            ≠ symIndex (q.1.index - sb.offset) (q.2.index - sb.offset) := by
        intro q hq he2
        have hqmem := upperPairs_mem rest q hq
        have hgt : sb.offset ≤ t.index := hge t (List.mem_cons_self _ _)
        have hq1 : sb.offset ≤ q.1.index := hge' _ hqmem.1
        have hq2 : sb.offset ≤ q.2.index := hge' _ hqmem.2
        rcases symIndex_inj he2 with ⟨h1, h2⟩ | ⟨h1, h2⟩
        · have : t.index = q.1.index := by omega
          exact hnotin (this ▸ List.mem_map_of_mem Triangle.index hqmem.1)
        · have : t.index = q.2.index := by omega
          exact hnotin (this ▸ List.mem_map_of_mem Triangle.index hqmem.2)
      rw [← he]
      have hoffaux := diagSaux_offset integ c rest
        ((t :: rest).foldl (fun sb t2 => symBlocOps.set sb t.index t2.index
          (integ.S t.index t2.index * c)) sb)
      rw [symBloc_get_eq, hoffaux, ho]
      rw [diagSaux_data integ c rest _ _ (by
        intro q hq
        rw [ho]
        exact hframe q hq)]
      rw [symBloc_get_eq, ho] at hrow
      exact hrow
    · refine ih _ hnd' (by
        intro t' ht'
        rw [ho]
        exact hge' t' ht') p hright

lemma bloc_get_eq (bl : Bloc) (i j : ℕ) :
    blocOps.get bl i j = bl.base.entry (i - bl.i0) (j - bl.j0) := rfl

lemma DenMatrix.entry_set (A : DenMatrix) (i j a b : ℕ) (v : ℚ) :
    (A.set i j v).entry a b = if a = i ∧ b = j then v else A.entry a b := rfl

lemma blocRow_offs (integ : Integ) (c : ℚ) (t1 : Triangle) :
    ∀ (ys : List Triangle) (bl : Bloc),
    ((ys.foldl (fun bl t2 => blocOps.set bl t1.index t2.index
      (integ.S t1.index t2.index * c)) bl)).i0 = bl.i0 ∧
    ((ys.foldl (fun bl t2 => blocOps.set bl t1.index t2.index
      (integ.S t1.index t2.index * c)) bl)).j0 = bl.j0 := by
  intro ys
  induction ys with
  | nil => intro bl; exact ⟨rfl, rfl⟩
  | cons t2 ys' ih =>
    intro bl
    rw [List.foldl_cons]
    exact (ih _)

lemma blocRow_data (integ : Integ) (c : ℚ) (t1 : Triangle) :
    ∀ (ys : List Triangle) (bl : Bloc) (a b : ℕ),
    (∀ t2 ∈ ys, ¬(a = t1.index - bl.i0 ∧ b = t2.index - bl.j0)) →
    (ys.foldl (fun bl t2 => blocOps.set bl t1.index t2.index
      (integ.S t1.index t2.index * c)) bl).base.entry a b = bl.base.entry a b := by
  intro ys
  induction ys with
  | nil => intro bl a b _; rfl
  | cons t2 ys' ih =>
    intro bl a b hc
    rw [List.foldl_cons]
    rw [ih (blocOps.set bl t1.index t2.index (integ.S t1.index t2.index * c)) a b
      (fun t2' ht2' => hc t2' (List.mem_cons_of_mem _ ht2'))]
    show (bl.base.set (t1.index - bl.i0) (t2.index - bl.j0)
      (integ.S t1.index t2.index * c)).entry a b = bl.base.entry a b
    rw [DenMatrix.entry_set, if_neg (hc t2 (List.mem_cons_self _ _))]

lemma blocRow_get (integ : Integ) (c : ℚ) (t1 : Triangle) :
    ∀ (ys : List Triangle) (bl : Bloc),
    ((ys.map Triangle.index).Nodup) → (∀ t ∈ ys, bl.j0 ≤ t.index) →
    ∀ t2 ∈ ys,
    blocOps.get (ys.foldl (fun bl t2 => blocOps.set bl t1.index t2.index
      (integ.S t1.index t2.index * c)) bl) t1.index t2.index
      = integ.S t1.index t2.index * c := by
  intro ys
  induction ys with
  | nil => intro _ _ _ t2 ht2; simp at ht2
  | cons t0 ys' ih =>
    intro bl hnd hge t2 ht2
    have hnotin : t0.index ∉ ys'.map Triangle.index := by
      rw [List.map_cons] at hnd
      exact (List.nodup_cons.mp hnd).1
    have hnd' : (ys'.map Triangle.index).Nodup := by
      rw [List.map_cons] at hnd
      exact (List.nodup_cons.mp hnd).2
    have hge' : ∀ t ∈ ys', bl.j0 ≤ t.index :=
      fun t ht => hge t (List.mem_cons_of_mem _ ht)
    rw [List.foldl_cons]
    rcases List.mem_cons.mp ht2 with rfl | ht2'
    · have hoffs := blocRow_offs integ c t1 ys'
        (blocOps.set bl t1.index t2.index (integ.S t1.index t2.index * c))
      rw [bloc_get_eq, hoffs.1, hoffs.2,
        show (blocOps.set bl t1.index t2.index (integ.S t1.index t2.index * c)).i0 = bl.i0
          from rfl,
        show (blocOps.set bl t1.index t2.index (integ.S t1.index t2.index * c)).j0 = bl.j0
          from rfl]
      have hframe : ∀ t2' ∈ ys',
          ¬(t1.index - bl.i0 = t1.index - bl.i0 ∧
            t2.index - bl.j0 = t2'.index - bl.j0) := by
        rintro t2' ht2' ⟨-, h2⟩
        have hb1 := hge t2 (List.mem_cons_self _ _)
        have hb2 := hge' t2' ht2'
        have hidx : t2.index = t2'.index := by omega
        exact hnotin (hidx ▸ List.mem_map_of_mem Triangle.index ht2')
      rw [blocRow_data integ c t1 ys'
        (blocOps.set bl t1.index t2.index (integ.S t1.index t2.index * c))
        (t1.index - bl.i0) (t2.index - bl.j0) hframe]
      show (bl.base.set (t1.index - bl.i0) (t2.index - bl.j0)
        (integ.S t1.index t2.index * c)).entry (t1.index - bl.i0) (t2.index - bl.j0) = _
      rw [DenMatrix.entry_set, if_pos ⟨rfl, rfl⟩]
    · exact ih (blocOps.set bl t1.index t0.index (integ.S t1.index t0.index * c))
        hnd' (fun t ht => hge' t ht) t2 ht2'

lemma ndSopOuter_offs (integ : Integ) (c : ℚ) (m2tris : List Triangle) :
    ∀ (l : List Triangle) (bl : Bloc),
    ((l.foldl (fun bl t1 => m2tris.foldl (fun bl t2 => blocOps.set bl t1.index t2.index
      (integ.S t1.index t2.index * c)) bl) bl)).i0 = bl.i0 ∧
    ((l.foldl (fun bl t1 => m2tris.foldl (fun bl t2 => blocOps.set bl t1.index t2.index
      (integ.S t1.index t2.index * c)) bl) bl)).j0 = bl.j0 := by
  intro l
  induction l with
  | nil => intro bl; exact ⟨rfl, rfl⟩
  | cons ta rest ih =>
    intro bl
    rw [List.foldl_cons]
    have h1 := ih (m2tris.foldl (fun bl t2 => blocOps.set bl ta.index t2.index
      (integ.S ta.index t2.index * c)) bl)
    have h2 := blocRow_offs integ c ta m2tris bl
    exact ⟨h1.1.trans h2.1, h1.2.trans h2.2⟩

lemma ndSopOuter_data (integ : Integ) (c : ℚ) (m2tris : List Triangle) :
    ∀ (l : List Triangle) (bl : Bloc) (a b : ℕ),
    (∀ t1 ∈ l, a ≠ t1.index - bl.i0) →
    (l.foldl (fun bl t1 => m2tris.foldl (fun bl t2 => blocOps.set bl t1.index t2.index
      (integ.S t1.index t2.index * c)) bl) bl).base.entry a b = bl.base.entry a b := by
  intro l
  induction l with
  | nil => intro bl a b _; rfl
  | cons ta rest ih =>
    intro bl a b hc
    rw [List.foldl_cons]
    have hoffs := blocRow_offs integ c ta m2tris bl
    rw [ih (m2tris.foldl (fun bl t2 => blocOps.set bl ta.index t2.index
      (integ.S ta.index t2.index * c)) bl) a b (by
      intro t1' ht1'
      rw [hoffs.1]
      exact hc t1' (List.mem_cons_of_mem _ ht1'))]
    exact blocRow_data integ c ta m2tris bl a b
      (fun t2 _ h => hc ta (List.mem_cons_self _ _) h.1)

lemma ndSop_get (integ : Integ) (c : ℚ) (m2tris : List Triangle) :
    ∀ (l1 : List Triangle) (bl : Bloc),
    ((l1.map Triangle.index).Nodup) → (∀ t ∈ l1, bl.i0 ≤ t.index) →
    ((m2tris.map Triangle.index).Nodup) → (∀ t ∈ m2tris, bl.j0 ≤ t.index) →
    ∀ t1 ∈ l1, ∀ t2 ∈ m2tris,
    blocOps.get (l1.foldl (fun bl t1 =>
        m2tris.foldl (fun bl t2 => blocOps.set bl t1.index t2.index
          (integ.S t1.index t2.index * c)) bl) bl) t1.index t2.index
      = integ.S t1.index t2.index * c := by
  intro l1
  induction l1 with
  | nil => intro _ _ _ _ _ t1 ht1; simp at ht1
  | cons ta rest ih =>
    intro bl hnd1 hge1 hnd2 hge2 t1 ht1 t2 ht2
    have hnotin : ta.index ∉ rest.map Triangle.index := by
      rw [List.map_cons] at hnd1
      exact (List.nodup_cons.mp hnd1).1
    have hnd1' : (rest.map Triangle.index).Nodup := by
      rw [List.map_cons] at hnd1
      exact (List.nodup_cons.mp hnd1).2
    have hge1' : ∀ t ∈ rest, bl.i0 ≤ t.index :=
      fun t ht => hge1 t (List.mem_cons_of_mem _ ht)
    rw [List.foldl_cons]
    have hrowoffs := blocRow_offs integ c ta m2tris bl
    rcases List.mem_cons.mp ht1 with rfl | ht1'
    · have hval := blocRow_get integ c t1 m2tris bl hnd2 hge2 t2 ht2
      have houter := ndSopOuter_offs integ c m2tris rest
        (m2tris.foldl (fun bl t2 => blocOps.set bl t1.index t2.index
          (integ.S t1.index t2.index * c)) bl)
      rw [bloc_get_eq, houter.1, houter.2, hrowoffs.1, hrowoffs.2]
      rw [ndSopOuter_data integ c m2tris rest
        (m2tris.foldl (fun bl t2 => blocOps.set bl t1.index t2.index
          (integ.S t1.index t2.index * c)) bl)
        (t1.index - bl.i0) (t2.index - bl.j0) (by
          intro t1' ht1' he
          rw [hrowoffs.1] at he
          have hb1 := hge1 t1 (List.mem_cons_self _ _)
          have hb2 := hge1' t1' ht1'
          have : t1.index = t1'.index := by omega
          exact hnotin (this ▸ List.mem_map_of_mem Triangle.index ht1'))]
      rw [bloc_get_eq, hrowoffs.1, hrowoffs.2] at hval
      exact hval
    · refine ih (m2tris.foldl (fun bl t2 => blocOps.set bl ta.index t2.index
        (integ.S ta.index t2.index * c)) bl) hnd1' (by
          intro t ht
          rw [hrowoffs.1]
          exact hge1' t ht) hnd2 (by
          intro t ht
          rw [hrowoffs.2]
          exact hge2 t ht) t1 ht1' t2 ht2

lemma ndNrow_data (m1 m2 : Mesh) (sget : SymMatrix → ℕ → ℕ → ℚ) (coeff : ℚ) (v1 : ℕ) :
    ∀ (ys : List ℕ) (mat : SymMatrix) (c : ℕ),
    (∀ y ∈ ys, c ≠ symIndex v1 y) →
    (ys.foldl (fun mat v2 => ndNstep symOps m1 m2 sget coeff mat v1 v2) mat).data c
      = mat.data c := by
  intro ys
  induction ys with
  | nil => intro mat c _; rfl
  | cons y ys' ih =>
    intro mat c hc
    rw [List.foldl_cons, ih _ _ (fun y' hy' => hc y' (List.mem_cons_of_mem _ hy'))]
    show (mat.setEntry v1 y _).data c = mat.data c
    rw [SymMatrix.data_setEntry, if_neg (hc y (List.mem_cons_self _ _))]

lemma ndNrow_get (m1 m2 : Mesh) (sget : SymMatrix → ℕ → ℕ → ℚ) (coeff : ℚ)
    (hstab : ∀ (M M' : SymMatrix),
      (∀ c, (∀ x ∈ m1.vertices, ∀ z ∈ m2.vertices, c ≠ symIndex x z) → M.data c = M'.data c) →
      ∀ w1 ∈ m1.vertices, ∀ w2 ∈ m2.vertices,
        baseNdiff w1 w2 m1 m2 (sget M) = baseNdiff w1 w2 m1 m2 (sget M'))
    (v1 : ℕ) (hv1 : v1 ∈ m1.vertices) :
    ∀ (ys : List ℕ), ys.Nodup → (∀ y ∈ ys, y ∈ m2.vertices) → ∀ (mat : SymMatrix),
    ∀ y ∈ ys,
    (ys.foldl (fun mat v2 => ndNstep symOps m1 m2 sget coeff mat v1 v2) mat).get v1 y
      = mat.get v1 y + baseNdiff v1 y m1 m2 (sget mat) * coeff := by
  intro ys
  induction ys with
  | nil => intro _ _ mat y hy; simp at hy
  | cons y0 ys' ih =>
    intro hnd hsub mat y hy
    have hy0 : y0 ∉ ys' := (List.nodup_cons.mp hnd).1
    have hnd' : ys'.Nodup := (List.nodup_cons.mp hnd).2
    have hsub' : ∀ z ∈ ys', z ∈ m2.vertices := fun z hz => hsub z (List.mem_cons_of_mem _ hz)
    rw [List.foldl_cons]
    rcases List.mem_cons.mp hy with rfl | hy'
    · have hframe : ∀ y' ∈ ys', symIndex v1 y ≠ symIndex v1 y' := by
        intro y' hy' he
        exact hy0 (symIndex_row_inj he ▸ hy')
      have hdata := ndNrow_data m1 m2 sget coeff v1 ys'
        (ndNstep symOps m1 m2 sget coeff mat v1 y) (symIndex v1 y) hframe
      calc (List.foldl (fun mat v2 => ndNstep symOps m1 m2 sget coeff mat v1 v2)
              (ndNstep symOps m1 m2 sget coeff mat v1 y) ys').get v1 y
          = (ndNstep symOps m1 m2 sget coeff mat v1 y).data (symIndex v1 y) := hdata
        _ = mat.get v1 y + baseNdiff v1 y m1 m2 (sget mat) * coeff := by
            rw [show ndNstep symOps m1 m2 sget coeff mat v1 y
                = mat.setEntry v1 y (mat.get v1 y + baseNdiff v1 y m1 m2 (sget mat) * coeff)
                from rfl]
            rw [SymMatrix.data_setEntry, if_pos rfl]
    · have hcell : symIndex v1 y ≠ symIndex v1 y0 := by
        intro he
        exact hy0 (symIndex_row_inj he ▸ hy')
      rw [ih hnd' hsub' _ y hy']
      have hg : (ndNstep symOps m1 m2 sget coeff mat v1 y0).get v1 y = mat.get v1 y := by
        rw [show ndNstep symOps m1 m2 sget coeff mat v1 y0
            = mat.setEntry v1 y0 (mat.get v1 y0 + baseNdiff v1 y0 m1 m2 (sget mat) * coeff)
            from rfl]
        rw [SymMatrix.get_setEntry, if_neg hcell]
      have hb : baseNdiff v1 y m1 m2 (sget (ndNstep symOps m1 m2 sget coeff mat v1 y0))
          = baseNdiff v1 y m1 m2 (sget mat) := by
        refine hstab _ _ ?_ v1 hv1 y (hsub y hy)
        intro c hc
        rw [show ndNstep symOps m1 m2 sget coeff mat v1 y0
            = mat.setEntry v1 y0 (mat.get v1 y0 + baseNdiff v1 y0 m1 m2 (sget mat) * coeff)
            from rfl]
        rw [SymMatrix.data_setEntry,
          if_neg (hc v1 hv1 y0 (hsub y0 (List.mem_cons_self _ _)))]
      rw [hg, hb]

lemma ndNouter_get (m1 m2 : Mesh) (sget : SymMatrix → ℕ → ℕ → ℚ) (coeff : ℚ)
    (hstab : ∀ (M M' : SymMatrix),
      (∀ c, (∀ x ∈ m1.vertices, ∀ z ∈ m2.vertices, c ≠ symIndex x z) → M.data c = M'.data c) →
      ∀ w1 ∈ m1.vertices, ∀ w2 ∈ m2.vertices,
        baseNdiff w1 w2 m1 m2 (sget M) = baseNdiff w1 w2 m1 m2 (sget M'))
    (hnd2 : m2.vertices.Nodup)
    (hdisj : ∀ x ∈ m1.vertices, x ∉ m2.vertices) :
    ∀ (l1 : List ℕ), l1.Nodup → (∀ x ∈ l1, x ∈ m1.vertices) →
    ∀ (mat : SymMatrix) (i j : ℕ),
    (l1.foldl (fun mat v1 => m2.vertices.foldl
        (fun mat v2 => ndNstep symOps m1 m2 sget coeff mat v1 v2) mat) mat).get i j
      = mat.get i j
        + (if i ∈ l1 ∧ j ∈ m2.vertices then baseNdiff i j m1 m2 (sget mat) * coeff
           else if j ∈ l1 ∧ i ∈ m2.vertices then baseNdiff j i m1 m2 (sget mat) * coeff
           else 0) := by
  intro l1
  induction l1 with
  | nil => intro _ _ mat i j; simp
  | cons v rest ih =>
    intro hnd hsub mat i j
    have hv : v ∉ rest := (List.nodup_cons.mp hnd).1
    have hnd' : rest.Nodup := (List.nodup_cons.mp hnd).2
    have hsub' : ∀ x ∈ rest, x ∈ m1.vertices := fun x hx => hsub x (List.mem_cons_of_mem _ hx)
    have hvm : v ∈ m1.vertices := hsub v (List.mem_cons_self _ _)
    rw [List.foldl_cons, ih hnd' hsub']
    have hM1data : ∀ c, (∀ x ∈ m1.vertices, ∀ z ∈ m2.vertices, c ≠ symIndex x z) →
        (m2.vertices.foldl (fun mat v2 => ndNstep symOps m1 m2 sget coeff mat v v2)
          mat).data c = mat.data c := by
      intro c hc
      exact ndNrow_data m1 m2 sget coeff v m2.vertices mat c
        (fun y hy => hc v hvm y hy)
    have hbM1 := hstab _ _ hM1data
    have hrowget := ndNrow_get m1 m2 sget coeff hstab v hvm m2.vertices hnd2
      (fun y hy => hy) mat
    by_cases hA : i ∈ v :: rest ∧ j ∈ m2.vertices
    · rw [if_pos hA]
      rcases List.mem_cons.mp hA.1 with rfl | hi
      · -- i = v: this row wrote the cell
        have hnf1 : ¬(i ∈ rest ∧ j ∈ m2.vertices) := fun h => hv h.1
        have hnf2 : ¬(j ∈ rest ∧ i ∈ m2.vertices) := fun h => hdisj i hvm h.2
        rw [if_neg hnf1, if_neg hnf2, add_zero]
        exact hrowget j hA.2
      · -- i strictly later: frame through this row, deltas agree
        have hif : i ∈ rest ∧ j ∈ m2.vertices := ⟨hi, hA.2⟩
        rw [if_pos hif]
        have hid : i ≠ v := fun he => hv (he ▸ hi)
        have hframe : ∀ y ∈ m2.vertices, symIndex i j ≠ symIndex v y := by
          intro y hy he
          rcases symIndex_inj he with ⟨h1, h2⟩ | ⟨h1, h2⟩
          · exact hid h1
          · exact hdisj i (hsub' i hi) (h1 ▸ hy)
        have hg := ndNrow_data m1 m2 sget coeff v m2.vertices mat (symIndex i j) hframe
        have hg' : (m2.vertices.foldl (fun mat v2 => ndNstep symOps m1 m2 sget coeff mat v v2)
            mat).get i j = mat.get i j := hg
        rw [hg', hbM1 i (hsub' i hi) j hA.2]
    · rw [if_neg hA]
      by_cases hB : j ∈ v :: rest ∧ i ∈ m2.vertices
      · rw [if_pos hB]
        rcases List.mem_cons.mp hB.1 with rfl | hj
        · -- j = v: the row wrote cell (v,i)
          have hnf1 : ¬(i ∈ rest ∧ j ∈ m2.vertices) := fun h => hdisj j hvm h.2
          have hnf2 : ¬(j ∈ rest ∧ i ∈ m2.vertices) := fun h => hv h.1
          rw [if_neg hnf1, if_neg hnf2, add_zero]
          calc (m2.vertices.foldl (fun mat v2 => ndNstep symOps m1 m2 sget coeff mat j v2)
                  mat).get i j
              = (m2.vertices.foldl (fun mat v2 => ndNstep symOps m1 m2 sget coeff mat j v2)
                  mat).get j i := SymMatrix.get_comm _ i j
            _ = mat.get j i + baseNdiff j i m1 m2 (sget mat) * coeff := hrowget i hB.2
            _ = mat.get i j + baseNdiff j i m1 m2 (sget mat) * coeff := by
                rw [SymMatrix.get_comm mat j i]
        · have hjd : j ≠ v := fun he => hv (he ▸ hj)
          have hnf1 : ¬(i ∈ rest ∧ j ∈ m2.vertices) := by
            rintro ⟨h1, h2⟩
            exact hdisj j (hsub' j hj) h2
          have hif : j ∈ rest ∧ i ∈ m2.vertices := ⟨hj, hB.2⟩
          rw [if_neg hnf1, if_pos hif]
          have hframe : ∀ y ∈ m2.vertices, symIndex i j ≠ symIndex v y := by
            intro y hy he
            rcases symIndex_inj he with ⟨h1, h2⟩ | ⟨h1, h2⟩
            · exact hdisj v hvm (h1 ▸ hB.2)
            · exact hjd h2
          have hg : (m2.vertices.foldl (fun mat v2 => ndNstep symOps m1 m2 sget coeff mat v v2)
              mat).get i j = mat.get i j :=
            ndNrow_data m1 m2 sget coeff v m2.vertices mat (symIndex i j) hframe
          rw [hg, hbM1 j (hsub' j hj) i hB.2]
      · rw [if_neg hB]
        have hnf1 : ¬(i ∈ rest ∧ j ∈ m2.vertices) := by
          rintro ⟨h1, h2⟩
          exact hA ⟨List.mem_cons_of_mem _ h1, h2⟩
        have hnf2 : ¬(j ∈ rest ∧ i ∈ m2.vertices) := by
          rintro ⟨h1, h2⟩
          exact hB ⟨List.mem_cons_of_mem _ h1, h2⟩
        rw [if_neg hnf1, if_neg hnf2]
        have hframe : ∀ y ∈ m2.vertices, symIndex i j ≠ symIndex v y := by
          intro y hy he
          rcases symIndex_inj he with ⟨h1, h2⟩ | ⟨h1, h2⟩
          · exact hA ⟨by rw [h1]; exact List.mem_cons_self _ _, h2 ▸ hy⟩
          · exact hB ⟨by rw [h2]; exact List.mem_cons_self _ _, h1 ▸ hy⟩
        have hg : (m2.vertices.foldl (fun mat v2 => ndNstep symOps m1 m2 sget coeff mat v v2)
            mat).get i j = mat.get i j :=
          ndNrow_data m1 m2 sget coeff v m2.vertices mat (symIndex i j) hframe
        rw [hg]

/-- Claim C7: when an S block was previously computed and cached for the
mesh pair (`Scoeff` recorded, nonzero), the N computation of both engines
reuses the sink's already-stored S values rescaled by `coeff/Scoeff`;
otherwise it computes a temporary S sub-block at coefficient 1 through an
offset block view, derives N from it, and never writes that temporary block
into the result: every sink entry outside the vertex-pair block is left
unchanged (the `else 0` frame), and the temporary's entries at the visited
triangle pairs are exactly `integrate(S) * 1`.  Stated under the geometry
index invariants (duplicate-free index lists, vertex/triangle index ranges
disjoint, incident triangles belonging to the mesh, triangle indices at or
after the front index). -/
theorem claim_C7_n_from_s (integ : Integ) (m m1 m2 : Mesh) (g : ℕ → ℚ)
    (g2 : ℕ → ℕ → ℚ) (Scoeff coeff : ℚ) (mat : SymMatrix)
    (hvn : m.vertices.Nodup)
    (hvt : ∀ v ∈ m.vertices, v ∉ triIdx m)
    (hinc : ∀ v ∈ m.vertices, ∀ t ∈ m.trianglesAt v, t.index ∈ triIdx m)
    (htn : (triIdx m).Nodup)
    (hfr : ∀ t ∈ m.triangles, frontIdx m.triangles ≤ t.index)
    (hn1 : m1.vertices.Nodup) (hn2 : m2.vertices.Nodup)
    (hdisj : ∀ x ∈ m1.vertices, x ∉ m2.vertices)
    (hvt1 : ∀ v ∈ m1.vertices, v ∉ triIdx m1 ∧ v ∉ triIdx m2)
    (hinc1 : ∀ v ∈ m1.vertices, ∀ t ∈ m1.trianglesAt v, t.index ∈ triIdx m1)
    (hinc2 : ∀ v ∈ m2.vertices, ∀ t ∈ m2.trianglesAt v, t.index ∈ triIdx m2)
    (htn1 : (triIdx m1).Nodup) (htn2 : (triIdx m2).Nodup)
    (hfr1 : ∀ t ∈ m1.triangles, frontIdx m1.triangles ≤ t.index)
    (hfr2 : ∀ t ∈ m2.triangles, frontIdx m2.triangles ≤ t.index) :
    (Scoeff ≠ 0 → ∀ i j, (diagN symOps integ m g Scoeff coeff mat).get i j
        = mat.get i j + (if i ∈ m.vertices ∧ j ∈ m.vertices
            then baseNsame i j m mat.get * (coeff / Scoeff) else 0)) ∧
    (∀ i j, (diagN symOps integ m g 0 coeff mat).get i j
        = mat.get i j + (if i ∈ m.vertices ∧ j ∈ m.vertices
            then baseNsame i j m (symBlocOps.get (freshDiagS integ m g)) * coeff else 0)) ∧
    (∀ p ∈ upperPairs m.triangles,
        symBlocOps.get (freshDiagS integ m g) p.1.index p.2.index
          = integ.S p.1.index p.2.index * 1) ∧
    (Scoeff ≠ 0 → ∀ i j, (ndN symOps integ m1 m2 g2 Scoeff coeff mat).get i j
        = mat.get i j + (if i ∈ m1.vertices ∧ j ∈ m2.vertices
            then baseNdiff i j m1 m2 mat.get * (coeff / Scoeff)
            else if j ∈ m1.vertices ∧ i ∈ m2.vertices
            then baseNdiff j i m1 m2 mat.get * (coeff / Scoeff) else 0)) ∧
    (∀ i j, (ndN symOps integ m1 m2 g2 0 coeff mat).get i j
        = mat.get i j + (if i ∈ m1.vertices ∧ j ∈ m2.vertices
            then baseNdiff i j m1 m2 (blocOps.get (freshNdS integ m1 m2 g2)) * coeff
            else if j ∈ m1.vertices ∧ i ∈ m2.vertices
            then baseNdiff j i m1 m2 (blocOps.get (freshNdS integ m1 m2 g2)) * coeff
            else 0)) ∧
    (∀ t1 ∈ m1.triangles, ∀ t2 ∈ m2.triangles,
        blocOps.get (freshNdS integ m1 m2 g2) t1.index t2.index
          = integ.S t1.index t2.index * 1) := by
  have hstabD : ∀ (M M' : SymMatrix),
      (∀ c, (∀ x ∈ m.vertices, ∀ z ∈ m.vertices, c ≠ symIndex x z) → M.data c = M'.data c) →
      ∀ w1 ∈ m.vertices, ∀ w2 ∈ m.vertices,
        baseNsame w1 w2 m (symOps.get M) = baseNsame w1 w2 m (symOps.get M') := by
    intro M M' hMM w1 hw1 w2 hw2
    apply baseNaux_congr
    intro t1 ht1 t2 ht2
    show M.data (symIndex t1.index t2.index) = M'.data (symIndex t1.index t2.index)
    apply hMM
    intro x hx z hz he
    have h1 : t1.index ∈ triIdx m := hinc w1 hw1 t1 ht1
    have h2 : t2.index ∈ triIdx m := hinc w2 hw2 t2 ht2
    rcases symIndex_inj he with ⟨e1, e2⟩ | ⟨e1, e2⟩
    · exact hvt x hx (e1 ▸ h1)
    · exact hvt x hx (e2 ▸ h2)
  have hsymD : ∀ (M : SymMatrix) (w1 w2 : ℕ),
      baseNsame w1 w2 m (symOps.get M) = baseNsame w2 w1 m (symOps.get M) :=
    fun M w1 w2 => baseNsame_comm w1 w2 m _ (fun a b => SymMatrix.get_comm M a b)
  have hsymF : ∀ a b, symBlocOps.get (freshDiagS integ m g) a b
      = symBlocOps.get (freshDiagS integ m g) b a := by
    intro a b
    rw [symBloc_get_eq, symBloc_get_eq, symIndex_comm]
  have hstabND : ∀ (M M' : SymMatrix),
      (∀ c, (∀ x ∈ m1.vertices, ∀ z ∈ m2.vertices, c ≠ symIndex x z) →
        M.data c = M'.data c) →
      ∀ w1 ∈ m1.vertices, ∀ w2 ∈ m2.vertices,
        baseNdiff w1 w2 m1 m2 (symOps.get M) = baseNdiff w1 w2 m1 m2 (symOps.get M') := by
    intro M M' hMM w1 hw1 w2 hw2
    apply baseNaux_congr
    intro t1 ht1 t2 ht2
    show M.data (symIndex t1.index t2.index) = M'.data (symIndex t1.index t2.index)
    apply hMM
    intro x hx z hz he
    have h1 : t1.index ∈ triIdx m1 := hinc1 w1 hw1 t1 ht1
    have h2 : t2.index ∈ triIdx m2 := hinc2 w2 hw2 t2 ht2
    rcases symIndex_inj he with ⟨e1, e2⟩ | ⟨e1, e2⟩
    · exact (hvt1 x hx).1 (e1 ▸ h1)
    · exact (hvt1 x hx).2 (e2 ▸ h2)
  refine ⟨?_, ?_, ?_, ?_, ?_, ?_⟩
  · intro hS i j
    rw [show diagN symOps integ m g Scoeff coeff mat
        = diagNaux symOps m symOps.get (coeff / Scoeff) m.vertices mat from by
      unfold diagN; exact if_pos hS]
    exact diagNaux_get m symOps.get (coeff / Scoeff) m.vertices hstabD hsymD
      m.vertices hvn (fun x hx => hx) mat i j
  · intro i j
    rw [show diagN symOps integ m g 0 coeff mat
        = diagNaux symOps m
            (fun _ i j => symBlocOps.get (freshDiagS integ m g) i j)
            coeff m.vertices mat from by
      unfold diagN; exact if_neg (fun h => h rfl)]
    exact diagNaux_get m
      (fun _ i j => symBlocOps.get (freshDiagS integ m g) i j) coeff m.vertices
      (fun M M' _ w1 _ w2 _ => rfl)
      (fun M w1 w2 => baseNsame_comm w1 w2 m _ hsymF)
      m.vertices hvn (fun x hx => hx) mat i j
  · intro p hp
    exact diagSaux_get integ 1 m.triangles
      ⟨frontIdx m.triangles, SymMatrix.allocG m.triangles.length g⟩ htn hfr p hp
  · intro hS i j
    rw [show ndN symOps integ m1 m2 g2 Scoeff coeff mat
        = ndNaux symOps m1 m2 symOps.get (coeff / Scoeff) mat from by
      unfold ndN; exact if_pos hS]
    exact ndNouter_get m1 m2 symOps.get (coeff / Scoeff) hstabND hn2 hdisj
      m1.vertices hn1 (fun x hx => hx) mat i j
  · intro i j
    rw [show ndN symOps integ m1 m2 g2 0 coeff mat
        = ndNaux symOps m1 m2
            (fun _ i j => blocOps.get (freshNdS integ m1 m2 g2) i j) coeff mat from by
      unfold ndN; exact if_neg (fun h => h rfl)]
    exact ndNouter_get m1 m2
      (fun _ i j => blocOps.get (freshNdS integ m1 m2 g2) i j) coeff
      (fun M M' _ w1 _ w2 _ => rfl) hn2 hdisj
      m1.vertices hn1 (fun x hx => hx) mat i j
  · intro t1 ht1 t2 ht2
    exact ndSop_get integ 1 m2.triangles m1.triangles
      ⟨frontIdx m1.triangles, frontIdx m2.triangles,
        ⟨m1.triangles.length, m2.triangles.length, g2⟩⟩
      htn1 hfr1 htn2 hfr2 t1 ht1 t2 ht2

/-- Witness for C7: on the concrete one-triangle meshes, the cached branch
reuses the stored values rescaled by `6/2` and the temporary S block holds
`integrate(S) * 1` at the visited pair. -/
theorem claim_C7_witness :
    ((diagN symOps integW meshW (fun _ => 0) 2 6 matW0).get 0 0
      = matW0.get 0 0 + (if 0 ∈ meshW.vertices ∧ 0 ∈ meshW.vertices
          then baseNsame 0 0 meshW matW0.get * (6 / 2) else 0)) ∧
    (symBlocOps.get (freshDiagS integW meshW (fun _ => 0)) triW.index triW.index
      = integW.S triW.index triW.index * 1) := by
  have h := claim_C7_n_from_s integW meshW meshW meshND (fun _ => 0) (fun _ _ => 0)
    2 6 matW0
    (by decide) (by decide) (by decide) (by decide) (by decide)
    (by decide) (by decide) (by decide) (by decide) (by decide)
    (by decide) (by decide) (by decide) (by decide) (by decide)
  exact ⟨h.1 (by norm_num) 0 0, h.2.2.1 (triW, triW) (by simp [upperPairs])⟩
